import Mathlib

set_option maxHeartbeats 1000000

/-!
Shallow embedding of the `@wymp/config-node` configuration pipeline
(`src/index.ts`) together with theorems checking the natural-language
specification against it.

The embedding models JavaScript strings as Lean `String` (a list of unicode
scalar values; JavaScript compares strings by UTF-16 code units, which agrees
with code-point order on the basic multilingual plane — all keys and values
appearing in the claims are ASCII), JavaScript numbers as exact values
(`JsNum` below; IEEE-754 rounding of integers of magnitude ≥ 2^53 and the
exponent-notation rendering of huge magnitudes are outside the model), and
fallible or throwing code as `Except`.
-/

namespace ConfigNode

/-- The value space of JavaScript numbers as used by the pipeline: the NaN
sentinel, the two infinities, and finite values kept exact as rationals
(IEEE-754 rounding is not modelled). -/
inductive JsNum where
  | nan
  | inf
  | negInf
  | finite (q : Rat)
deriving DecidableEq, Repr

/-- JSON-like values: the interpreted scalars produced by the pipeline plus
the array and object nodes of config trees.  Object fields are kept as an
association list in JavaScript property insertion order. -/
inductive JsonValue where
  | str (s : String)
  | num (x : JsNum)
  | bool (b : Bool)
  | null
  | arr (elems : List JsonValue)
  | obj (fields : List (String × JsonValue))

/-! ### Character and string helpers -/

/-- Decimal digit test, `c ∈ '0'..'9'`. -/
def isDigitChar (c : Char) : Bool := 48 ≤ c.toNat && c.toNat ≤ 57

/-- Numeric value of a decimal digit character. -/
def digitVal (c : Char) : Nat := c.toNat - 48

/-- The decimal digit character for a value `d < 10`. -/
def digitChar (d : Nat) : Char := Char.ofNat (48 + d)

/-- Value of a big-endian string of decimal digit characters. -/
def digitsVal (cs : List Char) : Nat :=
  Nat.ofDigits 10 ((cs.map digitVal).reverse)

/-- Hexadecimal digit test. -/
def isHexDigitChar (c : Char) : Bool :=
  (48 ≤ c.toNat && c.toNat ≤ 57) || (97 ≤ c.toNat && c.toNat ≤ 102) ||
    (65 ≤ c.toNat && c.toNat ≤ 70)

/-- Numeric value of a hexadecimal digit character. -/
def hexVal (c : Char) : Nat :=
  if 48 ≤ c.toNat && c.toNat ≤ 57 then c.toNat - 48
  else if 97 ≤ c.toNat then c.toNat - 87
  else c.toNat - 55

/-- Value of a big-endian string of hexadecimal digit characters. -/
def hexDigitsVal (cs : List Char) : Nat :=
  Nat.ofDigits 16 ((cs.map hexVal).reverse)

/-- The set of code points JavaScript treats as white space for the purpose
of `parseInt` and `Number` (ASCII white space, NBSP, the unicode `Zs` spaces,
the line separators and the BOM). -/
def isJsWhitespace (c : Char) : Bool :=
  c.toNat = 9 || c.toNat = 10 || c.toNat = 11 || c.toNat = 12 ||
  c.toNat = 13 || c.toNat = 32 || c.toNat = 160 || c.toNat = 5760 ||
  (8192 ≤ c.toNat && c.toNat ≤ 8202) || c.toNat = 8232 || c.toNat = 8233 ||
  c.toNat = 8239 || c.toNat = 8287 || c.toNat = 12288 || c.toNat = 65279

/-- The line terminators that the regular-expression metacharacter `.` does
not match in JavaScript: LF, CR, U+2028 and U+2029. -/
def isLineTerm (c : Char) : Bool :=
  c.toNat = 10 || c.toNat = 13 || c.toNat = 8232 || c.toNat = 8233

/-- True when the string contains no line terminator, so that `(.*)` in an
anchored JavaScript regular expression can consume all of it. -/
def noLineTerm (s : String) : Bool := s.data.all (fun c => !(isLineTerm c))

/-- Character-level prefix test on strings. -/
def strPre (p s : String) : Bool := p.data.isPrefixOf s.data

/-- Drop the first `n` characters of a string. -/
def strDrop (s : String) (n : Nat) : String := String.mk (s.data.drop n)

/-! ### The decimal printer for JavaScript numbers

JavaScript renders an integer-valued number of magnitude below `10^21` in
canonical decimal notation (no leading zeros, a leading `-` for negative
values, and `-0` rendered as `0`).  `natReprGo` produces the digits by
repeated division; the fuel argument only serves structural recursion and is
always sufficient. -/

def natReprGo : Nat → Nat → List Char
  | 0, _ => []
  | _, 0 => []
  | fuel + 1, n + 1 =>
      natReprGo fuel ((n + 1) / 10) ++ [digitChar ((n + 1) % 10)]

/-- Canonical decimal rendering of a natural number. -/
def natRepr (n : Nat) : String :=
  if n = 0 then "0" else String.mk (natReprGo n n)

/-- Canonical decimal rendering of an integer, as JavaScript string
conversion produces for integral numbers (of magnitude below `10^21`). -/
def intRepr (n : Int) : String :=
  if n < 0 then "-" ++ natRepr n.natAbs else natRepr n.natAbs

/-- String conversion of a `parseInt` result: `NaN` prints as `"NaN"`,
an integral number in canonical decimal notation.  This models the template
interpolation of a JavaScript number used at lines 203 and 232 of
`src/index.ts`. -/
def jsIntToString : Option Int → String
  | none => "NaN"
  | some n => intRepr n

/-! ### A model of `parseInt` (radix argument omitted)

`parseInt` skips leading white space, accepts an optional sign, auto-detects
a `0x`/`0X` prefix, then takes the longest prefix of valid digits; it returns
NaN (modelled as `none`) when no digit is consumed.  Trailing garbage is
ignored. -/

/-- Longest decimal-digit prefix, `none` when empty. -/
def takeDecDigits (cs : List Char) : Option Nat :=
  let ds := cs.takeWhile isDigitChar
  if ds.isEmpty then none else some (digitsVal ds)

/-- Longest hexadecimal-digit prefix, `none` when empty. -/
def takeHexDigits (cs : List Char) : Option Nat :=
  let ds := cs.takeWhile isHexDigitChar
  if ds.isEmpty then none else some (hexDigitsVal ds)

/-- Unsigned part of `parseInt`: auto-detected hexadecimal or decimal. -/
def parseIntNoSign (cs : List Char) : Option Nat :=
  match cs with
  | c0 :: x :: rest =>
      if c0 = '0' ∧ (x = 'x' ∨ x = 'X') then takeHexDigits rest
      else takeDecDigits (c0 :: x :: rest)
  | _ => takeDecDigits cs

/-- Sign dispatch of `parseInt`, applied after the leading white space has
been skipped. -/
def parseIntDispatch : List Char → Option Int
  | [] => none
  | c :: rest =>
      if c = '-' then (parseIntNoSign rest).map (fun n => -(Int.ofNat n))
      else if c = '+' then (parseIntNoSign rest).map Int.ofNat
      else (parseIntNoSign (c :: rest)).map Int.ofNat

/-- Model of JavaScript `parseInt(v)` with the radix argument omitted;
`none` models NaN. -/
def parseIntJs (v : String) : Option Int :=
  parseIntDispatch (v.data.dropWhile isJsWhitespace)

/-! ### A model of `Number(string)`

`Number` trims white space on both sides, maps the empty remainder to `0`,
and otherwise requires the whole remainder to be a string numeric literal:
an optionally signed decimal literal (digits, optional fraction, optional
exponent) or `Infinity`, or an unsigned `0x`/`0o`/`0b` integer literal.
Anything else gives NaN. -/

/-- Ten to a natural power, as a rational. -/
def pow10 (n : Nat) : Rat := ((10 ^ n : Nat) : Rat)

/-- Parse the exponent part after `e`/`E`: optional sign then at least one
digit; returns (negative?, magnitude). -/
def parseExponent (cs : List Char) : Option (Bool × Nat) :=
  match cs with
  | '-' :: rest =>
      if rest ≠ [] ∧ rest.all isDigitChar then some (true, digitsVal rest) else none
  | '+' :: rest =>
      if rest ≠ [] ∧ rest.all isDigitChar then some (false, digitsVal rest) else none
  | rest =>
      if rest ≠ [] ∧ rest.all isDigitChar then some (false, digitsVal rest) else none

/-- Parse an unsigned decimal literal `digits [. digits] [exp]`,
`. digits [exp]` included; the whole input must be consumed. -/
def parseUnsignedDec (cs : List Char) : Option Rat :=
  let ip := cs.takeWhile isDigitChar
  let rest1 := cs.dropWhile isDigitChar
  match rest1 with
  | [] => if ip.isEmpty then none else some ((digitsVal ip : Nat) : Rat)
  | '.' :: rest2 =>
      let fp := rest2.takeWhile isDigitChar
      let rest3 := rest2.dropWhile isDigitChar
      if ip.isEmpty ∧ fp.isEmpty then none
      else
        let mant : Rat := ((digitsVal ip : Nat) : Rat) + ((digitsVal fp : Nat) : Rat) / pow10 fp.length
        match rest3 with
        | [] => some mant
        | 'e' :: erest =>
            (parseExponent erest).map (fun pr =>
              if pr.1 then mant / pow10 pr.2 else mant * pow10 pr.2)
        | 'E' :: erest =>
            (parseExponent erest).map (fun pr =>
              if pr.1 then mant / pow10 pr.2 else mant * pow10 pr.2)
        | _ => none
  | 'e' :: erest =>
      if ip.isEmpty then none
      else (parseExponent erest).map (fun pr =>
        if pr.1 then ((digitsVal ip : Nat) : Rat) / pow10 pr.2
        else ((digitsVal ip : Nat) : Rat) * pow10 pr.2)
  | 'E' :: erest =>
      if ip.isEmpty then none
      else (parseExponent erest).map (fun pr =>
        if pr.1 then ((digitsVal ip : Nat) : Rat) / pow10 pr.2
        else ((digitsVal ip : Nat) : Rat) * pow10 pr.2)
  | _ => none

/-- Parse an unsigned decimal literal or the literal `Infinity`. -/
def parseUnsignedOrInf (cs : List Char) : Option JsNum :=
  if cs = "Infinity".data then some JsNum.inf
  else (parseUnsignedDec cs).map JsNum.finite

/-- Negate a parsed JavaScript number. -/
def jsNumNeg : JsNum → JsNum
  | JsNum.nan => JsNum.nan
  | JsNum.inf => JsNum.negInf
  | JsNum.negInf => JsNum.inf
  | JsNum.finite q => JsNum.finite (-q)

/-- Parse an unsigned non-decimal (`0x`/`0o`/`0b`) integer literal; the whole
input must be consumed. -/
def parseNonDec (cs : List Char) : Option JsNum :=
  match cs with
  | c0 :: x :: rest =>
      if c0 = '0' ∧ (x = 'x' ∨ x = 'X') ∧ rest ≠ [] ∧ rest.all isHexDigitChar then
        some (JsNum.finite ((hexDigitsVal rest : Nat) : Rat))
      else if c0 = '0' ∧ (x = 'o' ∨ x = 'O') ∧ rest ≠ [] ∧
          rest.all (fun c => 48 ≤ c.toNat && c.toNat ≤ 55) then
        some (JsNum.finite ((Nat.ofDigits 8 ((rest.map digitVal).reverse) : Nat) : Rat))
      else if c0 = '0' ∧ (x = 'b' ∨ x = 'B') ∧ rest ≠ [] ∧
          rest.all (fun c => c.toNat = 48 || c.toNat = 49) then
        some (JsNum.finite ((Nat.ofDigits 2 ((rest.map digitVal).reverse) : Nat) : Rat))
      else none
  | _ => none

/-- Sign-and-form dispatch of `Number`, applied to the trimmed input; the
empty remainder converts to `0`. -/
def jsNumberDispatch : List Char → JsNum
  | [] => JsNum.finite 0
  | c :: rest =>
      if c = '-' then
        match parseUnsignedOrInf rest with
        | some x => jsNumNeg x
        | none => JsNum.nan
      else if c = '+' then
        match parseUnsignedOrInf rest with
        | some x => x
        | none => JsNum.nan
      else
        match parseNonDec (c :: rest) with
        | some x => x
        | none =>
            match parseUnsignedOrInf (c :: rest) with
            | some x => x
            | none => JsNum.nan

/-- Model of JavaScript `Number(v)` for a string argument. -/
def jsNumber (v : String) : JsNum :=
  jsNumberDispatch
    (((v.data.dropWhile isJsWhitespace).reverse.dropWhile isJsWhitespace).reverse)

/-! ### `nativize` (src/index.ts lines 230–244) -/

/-- Embedding of `nativize`: convert a raw string into the native value it
looks like.  The guard on the first branch is the source's
`` `${parseInt(v)}` === v `` test. -/
def nativize (v : String) : JsonValue :=
  if jsIntToString (parseIntJs v) = v then JsonValue.num (jsNumber v)
  else if v = "true" then JsonValue.bool true
  else if v = "false" then JsonValue.bool false
  else if v = "null" then JsonValue.null
  else JsonValue.str v

/-! ### Canonical decimal integer strings

These definitions formalize the phrase "the string form of a base-10
integer" used by the specification: the canonical rendering of an integer
(no leading zeros, no `+`, no `-0`), exactly the strings `intRepr`
produces. -/

/-- Canonical decimal rendering of a natural number, as a character-list
predicate: nonempty, all digits, and no leading zero except for `"0"`
itself. -/
def isCanonNatCs : List Char → Bool
  | [] => false
  | c :: rest =>
      isDigitChar c && rest.all isDigitChar && (c ≠ '0' || rest.isEmpty)

/-- The value denoted by a canonical integer string, at character level. -/
def canonIntCs : List Char → Int
  | [] => 0
  | c :: rest =>
      if c = '-' then -(Int.ofNat (digitsVal rest))
      else Int.ofNat (digitsVal (c :: rest))

/-- The value denoted by a canonical integer string. -/
def canonIntVal (v : String) : Int := canonIntCs v.data

/-- Canonical signed integer rendering, at character level: a canonical
natural number rendering, optionally preceded by `-` (but not `-0`). -/
def isBase10IntCs : List Char → Bool
  | [] => false
  | c :: rest =>
      if c = '-' then isCanonNatCs rest && !(decide (rest = ['0']))
      else isCanonNatCs (c :: rest)

/-- The string is exactly the string form of a base-10 integer. -/
def isBase10IntString (v : String) : Bool := isBase10IntCs v.data

/-! ### The explicit-cast match (src/index.ts line 182)

The source matches the raw value against `/^<(number|string|boolean)>(.*)$/`.
Without the `s` flag the metacharacter `.` does not match line terminators
and without the `m` flag `$` only matches at the end of the input, so the
regular expression matches exactly when the value starts with one of the
three cast tags and the remainder contains no line terminator. -/

/-- Result of matching the cast regular expression: the cast name (capture 1)
and the remainder of the value (capture 2), or `none` when the expression
does not match. -/
def castTag (v : String) : Option (String × String) :=
  if strPre ("<number>") v && noLineTerm (strDrop v 8) then
    some ("number", strDrop v 8)
  else if strPre ("<string>") v && noLineTerm (strDrop v 8) then
    some ("string", strDrop v 8)
  else if strPre ("<boolean>") v && noLineTerm (strDrop v 9) then
    some ("boolean", strDrop v 9)
  else none

/-- JavaScript boolean coercion of a value, as `Boolean(x)` computes it. -/
def jsTruthy : JsonValue → Bool
  | JsonValue.str s => s ≠ ""
  | JsonValue.num JsNum.nan => false
  | JsonValue.num (JsNum.finite q) => q ≠ 0
  | JsonValue.num _ => true
  | JsonValue.bool b => b
  | JsonValue.null => false
  | JsonValue.arr _ => true
  | JsonValue.obj _ => true

/-- The value computation of `interpret` (src/index.ts lines 182–192):
explicit cast when the cast regular expression matches, native inference
otherwise. -/
def castValue (raw : String) : JsonValue :=
  match castTag raw with
  | some (ty, x) =>
      if ty = "number" then JsonValue.num (jsNumber x)
      else if ty = "boolean" then JsonValue.bool (jsTruthy (nativize x))
      else JsonValue.str x
  | none => nativize raw

/-! ### A model of `String.prototype.split` -/

/-- Worker for `jsSplit`; the fuel argument only serves structural recursion
and is always at least the length of the remaining input, so the `0` case is
never reached for a nonempty delimiter. -/
def jsSplitGo (delim : List Char) : Nat → List Char → List Char → List (List Char)
  | _, [], acc => [acc.reverse]
  | 0, cs, acc => [acc.reverse ++ cs]
  | fuel + 1, c :: rest, acc =>
      if delim.isPrefixOf (c :: rest) then
        acc.reverse :: jsSplitGo delim fuel ((c :: rest).drop delim.length) []
      else
        jsSplitGo delim fuel rest (c :: acc)

/-- Model of JavaScript `s.split(delim)` for a string delimiter: splits at
every occurrence of the delimiter; the empty delimiter splits into single
characters (and the empty string then yields the empty list). -/
def jsSplit (s delim : String) : List String :=
  match delim.data with
  | [] => s.data.map (fun c => String.mk [c])
  | d :: ds => (jsSplitGo (d :: ds) s.data.length s.data []).map String.mk

/-! ### The tree builder inside `interpret` (src/index.ts lines 194–220) -/

/-- Result of `typeof x` for a JavaScript string value.  In `interpret` the
expression `typeof path[i + 1]` is applied to an element of
`k.split(delimiter)`, which is always a string, so the comparison with
`"number"` on line 211 is always false and the array branch is dead code. -/
def jsTypeofOfString (_ : String) : String := "string"

/-- A path part as computed on line 203: the segment is converted to a
number when the canonical rendering of `parseInt` of the segment equals the
segment itself, and kept as a string otherwise. -/
inductive JsPart where
  | numPart (x : Option Int)
  | strPart (s : String)

/-- Line 203 of the source: `` `${parseInt(path[i])}` === path[i] ``. -/
def partOf (seg : String) : JsPart :=
  if jsIntToString (parseIntJs seg) = seg then JsPart.numPart (parseIntJs seg)
  else JsPart.strPart seg

/-- The property key a part denotes on an object node: JavaScript coerces a
numeric property name to its string rendering. -/
def partToKey : JsPart → String
  | JsPart.numPart x => jsIntToString x
  | JsPart.strPart s => s

/-- First field of an object field list with the given key
(JavaScript object keys are unique, so the convention is immaterial for
lists the pipeline itself builds). -/
def lookupField (fields : List (String × JsonValue)) (k : String) : Option JsonValue :=
  match fields.find? (fun kv => kv.1 == k) with
  | some kv => some kv.2
  | none => none

/-- Set a field on an object field list: update in place when the key
exists (JavaScript keeps the insertion position), append otherwise. -/
def setField : List (String × JsonValue) → String → JsonValue → List (String × JsonValue)
  | [], k, v => [(k, v)]
  | (k1, v1) :: fs, k, v =>
      if k1 = k then (k1, v) :: fs else (k1, v1) :: setField fs k v

/-- The tree-walking loop of `interpret`: descend along the path segments,
creating a child node where none exists (an array when `typeof` of the next
segment is the string `"number"` — which never holds, see
`jsTypeofOfString` — an object otherwise) and set the value at the last
segment.  `interpret` never creates array nodes and starts from an object,
so a non-object node is only reached when an existing scalar sits on the
path; a property write on a primitive is modelled as a silent no-op. -/
def insertPath : JsonValue → List String → JsonValue → JsonValue
  | t, [], _ => t
  | JsonValue.obj fields, [seg], v =>
      JsonValue.obj (setField fields (partToKey (partOf seg)) v)
  | JsonValue.obj fields, seg :: nxt :: rest, v =>
      let key := partToKey (partOf seg)
      let child :=
        match lookupField fields key with
        | some c => c
        | none =>
            if jsTypeofOfString nxt = "number" then JsonValue.arr []
            else JsonValue.obj []
      JsonValue.obj (setField fields key (insertPath child (nxt :: rest) v))
  | t, _, _ => t

/-! ### Errors

Thrown JavaScript values are modelled by their observable shape: an
optional `name`, a `message`, and the optional `key` and `details` fields a
validation failure may carry. -/

structure JsError where
  name : Option String
  message : String
  key : Option String
  details : Option JsonValue

/-- The runtime type error raised when `interpret` calls `.match` on an
`undefined` value (the JavaScript message contains quotes around `match`;
they are omitted here). -/
def undefinedMatchError : JsError :=
  { name := some "TypeError"
    message := "TypeError: cannot read properties of undefined (reading match)"
    key := none
    details := none }

/-! ### `interpret` (src/index.ts lines 172–225)

The flat map's values are typed `string` in the source but actually hold
`string | undefined` (the non-null assertion on line 157 has no runtime
effect), so the value type here is `Option String`; the `.match` call on an
`undefined` value throws. -/

/-- One step of the `reduce` in `interpret`. -/
def interpretStep (delim : String) (obj : JsonValue) (kv : String × Option String) :
    Except JsError JsonValue :=
  match kv.2 with
  | none => Except.error undefinedMatchError
  | some raw => Except.ok (insertPath obj (jsSplit kv.1 delim) (castValue raw))

/-- Embedding of `interpret`: fold the flat map into a config tree, starting
from the empty object.  The flat map is an association list in JavaScript
property insertion order (the reordering JavaScript applies to integer-like
object keys only affects iteration order of entries whose combined behavior
the specification leaves unspecified, and is not modelled). -/
def interpret (flat : List (String × Option String)) (delim : String) :
    Except JsError JsonValue :=
  flat.foldlM (interpretStep delim) (JsonValue.obj [])

/-! ### The key flattener in `_configFromEnv` (src/index.ts lines 146–162) -/

/-- Test for a version suffix `__[0-9]+`. -/
def isVersionSuffixCs : List Char → Bool
  | '_' :: '_' :: rest => rest ≠ [] && rest.all isDigitChar
  | _ => false

/-- Lazy-group split of the part after the namespace: the regular expression
`^ns(.+?)(__[0-9]+)?$` captures as group 1 the shortest nonempty prefix
whose complement is empty or a version suffix. -/
def splitBaseGo (acc : List Char) : List Char → List Char
  | [] => acc.reverse
  | c :: rest =>
      if isVersionSuffixCs (c :: rest) then acc.reverse
      else splitBaseGo (c :: acc) rest

/-- The base name captured by `^ns(.+?)(__[0-9]+)?$` for a raw key, or
`none` when the key does not match (the namespace is matched literally; the
specification notes callers must not rely on regex metacharacters in it). -/
def keyBase (ns k : String) : Option String :=
  if strPre ns k then
    match (strDrop k ns.data.length).data with
    | [] => none
    | c :: rest => some (String.mk (splitBaseGo [c] rest))
  else none

/-- First value stored under a key of a raw source map (JavaScript object
keys are unique). -/
def envGet (env : List (String × Option String)) (k : String) : Option String :=
  match env.find? (fun kv => kv.1 == k) with
  | some kv => kv.2
  | none => none

/-- Write into the aggregate of the flattening `reduce`: update in place
when the base name exists, append otherwise. -/
def upsert : List (String × Option String) → String → Option String →
    List (String × Option String)
  | [], k, v => [(k, v)]
  | (k1, v1) :: rest, k, v =>
      if k1 = k then (k1, v) :: rest else (k1, v1) :: upsert rest k v

/-- Lexicographic comparison of character lists by code point. -/
def charsLe : List Char → List Char → Bool
  | [], _ => true
  | _ :: _, [] => false
  | a :: as, b :: bs =>
      if a.toNat < b.toNat then true
      else if b.toNat < a.toNat then false
      else charsLe as bs

/-- The string order used by the default comparator of
`Array.prototype.sort`: lexicographic by UTF-16 code units, which agrees
with code-point order (used here) on the basic multilingual plane. -/
def strLeB (a b : String) : Bool := charsLe a.data b.data

/-- Sort raw keys ascending, as `Object.keys(env).sort()` does.  JavaScript
object keys are unique, so any sorting algorithm realizing the comparator
produces the same list; insertion sort is used here. -/
def sortStrings (ks : List String) : List String :=
  List.insertionSort (fun a b : String => strLeB a b = true) ks

/-- One step of the flattening `reduce` (lines 154–160). -/
def flattenStep (env : List (String × Option String)) (ns : String)
    (agg : List (String × Option String)) (cur : String) :
    List (String × Option String) :=
  match keyBase ns cur with
  | some nm => upsert agg nm (envGet env cur)
  | none => agg

/-- The flattening stage of `_configFromEnv`: keys in ascending lexical
order, filtered by namespace, version suffixes stripped, last write wins. -/
def flattenEnv (env : List (String × Option String)) (ns : String) :
    List (String × Option String) :=
  (sortStrings (env.map Prod.fst)).foldl (flattenStep env ns) []

/-- Embedding of `_configFromEnv` (default namespace `APP_`, default
delimiter `_` in the source). -/
def _configFromEnv (env : List (String × Option String)) (ns delim : String) :
    Except JsError JsonValue :=
  interpret (flattenEnv env ns) delim

/-! ### The deep merge collaborator

Modelled from the spec: the `deepmerge` utility imported from
`@wymp/weenie-base` is out of scope of the source (§1 of the specification
treats it as a collaborator with standard last-wins-per-key semantics);
§3/§4.5 describe it as merging object nodes recursively, with the later
value replacing the earlier one wholesale for everything else. -/

mutual

def deepmerge : JsonValue → JsonValue → JsonValue
  | JsonValue.obj f1, JsonValue.obj f2 => JsonValue.obj (dmFields f1 f2)
  | _, b => b
termination_by _ b => (sizeOf b, 0)

def dmFields (f1 : List (String × JsonValue)) :
    List (String × JsonValue) → List (String × JsonValue)
  | [] => f1
  | (k, v) :: rest =>
      dmFields
        (setField f1 k
          (match lookupField f1 k with
           | some v1 => deepmerge v1 v
           | none => v))
        rest
termination_by f2 => (sizeOf f2, 1)

end

/-! ### The source collector and merger (src/index.ts lines 95–109)

File reading and JSON parsing are external collaborators (out of scope per
§1 of the specification); an absent or missing source contributes an empty
object, a present file source is injected as its parsed tree. -/

/-- The `vals` computation and the `deepmerge(vals[0], vals[1], vals[2],
vals[3])` call of `config`. -/
def configMerged (defaults locals : Option JsonValue)
    (secretsSrc envSrc : Option (List (String × Option String)))
    (ns delim : String) : Except JsError JsonValue := do
  let v0 := match defaults with
    | some d => d
    | none => JsonValue.obj []
  let v1 := match locals with
    | some l => l
    | none => JsonValue.obj []
  let v2 ← match secretsSrc with
    | some s => _configFromEnv s ns delim
    | none => Except.ok (JsonValue.obj [])
  let v3 ← match envSrc with
    | some e => _configFromEnv e ns delim
    | none => Except.ok (JsonValue.obj [])
  Except.ok (deepmerge (deepmerge (deepmerge v0 v1) v2) v3)

/-! ### The validator gate (src/index.ts lines 111–123) -/

/-- The truthiness test `e.key ? ... : ""` and the interpolation of the key
part of the wrapped message. -/
def keyPart (e : JsError) : String :=
  match e.key with
  | some k => if k = "" then "" else k ++ ": "
  | none => ""

/-- Escape a character for a JSON string literal, as `JSON.stringify`
renders it. -/
def jsonEscapeChar (c : Char) : List Char :=
  if c = '"' then ['\\', '"']
  else if c = '\\' then ['\\', '\\']
  else if c.toNat = 10 then ['\\', 'n']
  else if c.toNat = 13 then ['\\', 'r']
  else if c.toNat = 9 then ['\\', 't']
  else if c.toNat = 8 then ['\\', 'b']
  else if c.toNat = 12 then ['\\', 'f']
  else if c.toNat < 32 then
    ['\\', 'u', '0', '0', digitChar (c.toNat / 16),
      (if c.toNat % 16 < 10 then digitChar (c.toNat % 16)
       else Char.ofNat (87 + c.toNat % 16))]
  else [c]

/-- JSON string literal for a string value. -/
def jsonEscape (s : String) : String :=
  String.mk ('"' :: s.data.foldr (fun c acc => jsonEscapeChar c ++ acc) ['"'])

/-- Rendering of a number by `JSON.stringify`: non-finite numbers render as
`null`; integral values in canonical decimal notation.  A non-integral
finite value is rendered as an exact fraction here, an approximation of the
JavaScript shortest-round-trip decimal rendering (never exercised by the
claims). -/
def jsonNumRender : JsNum → String
  | JsNum.finite q =>
      if q.den = 1 then intRepr q.num
      else intRepr q.num ++ "/" ++ natRepr q.den
  | _ => "null"

mutual

/-- Pretty printer modelling `JSON.stringify(value, null, 2)` at the given
current indentation. -/
def jsonStr (ind : String) : JsonValue → String
  | JsonValue.str s => jsonEscape s
  | JsonValue.num x => jsonNumRender x
  | JsonValue.bool b => if b then "true" else "false"
  | JsonValue.null => "null"
  | JsonValue.arr [] => "[]"
  | JsonValue.arr (x :: xs) =>
      "[\n" ++ jsonStrArr (ind ++ "  ") (x :: xs) ++ "\n" ++ ind ++ "]"
  | JsonValue.obj [] => "\x7b\x7d"
  | JsonValue.obj (f :: fs) =>
      "\x7b\n" ++ jsonStrFields (ind ++ "  ") (f :: fs) ++ "\n" ++ ind ++ "\x7d"
termination_by v => (sizeOf v, 0)

def jsonStrArr (ind : String) : List JsonValue → String
  | [] => ""
  | [x] => ind ++ jsonStr ind x
  | x :: y :: xs => ind ++ jsonStr ind x ++ ",\n" ++ jsonStrArr ind (y :: xs)
termination_by xs => (sizeOf xs, 1)

def jsonStrFields (ind : String) : List (String × JsonValue) → String
  | [] => ""
  | [(k, v)] => ind ++ jsonEscape k ++ ": " ++ jsonStr ind v
  | (k, v) :: f :: fs =>
      ind ++ jsonEscape k ++ ": " ++ jsonStr ind v ++ ",\n" ++
        jsonStrFields ind (f :: fs)
termination_by fs => (sizeOf fs, 1)

end

/-- Model of `JSON.stringify(details, null, 2)`. -/
def jsonStringifyPretty (v : JsonValue) : String := jsonStr "" v

/-- The truthiness test `e.details ? ... : ""` and the interpolation of the
details part of the wrapped message. -/
def detailsPart (e : JsError) : String :=
  match e.details with
  | some d =>
      if jsTruthy d then "\nDetails: " ++ jsonStringifyPretty d else ""
  | none => ""

/-- The error built by `new Error(...)` on lines 116–119: name `Error`,
the interpolated message, no `key` or `details` fields. -/
def wrapValidation (e : JsError) : JsError :=
  { name := some "Error"
    message := "Invalid configuration: " ++ keyPart e ++ e.message ++ detailsPart e
    key := none
    details := none }

/-- The try/catch around `validator.check(config)` (lines 112–123): a
failure whose `name` is `"ValidationError"` is rewrapped, any other failure
is rethrown unchanged. -/
def runValidator (check : JsonValue → Except JsError JsonValue)
    (c : JsonValue) : Except JsError JsonValue :=
  match check c with
  | Except.ok cfg => Except.ok cfg
  | Except.error e =>
      if e.name = some "ValidationError" then Except.error (wrapValidation e)
      else Except.error e

/-- Embedding of the top-level `config` operation over injected sources:
collect and merge, then run the validator gate.  The source returns the
validated value wrapped in a `{ config: ... }` record; the wrapper is
omitted here. -/
def config (check : JsonValue → Except JsError JsonValue)
    (defaults locals : Option JsonValue)
    (secretsSrc envSrc : Option (List (String × Option String)))
    (ns delim : String) : Except JsError JsonValue := do
  let merged ← configMerged defaults locals secretsSrc envSrc ns delim
  runValidator check merged

/-- The pass-through validator from the source documentation
(`{ check: (c: any) => c }`), which never throws. -/
def passCheck : JsonValue → Except JsError JsonValue := fun c => Except.ok c

/-! ### The secrets directory reader (src/index.ts lines 133–139) -/

/-- A file-system snapshot: a map from path strings to file contents.
Relative paths resolve against the process working directory and are
modelled as keys distinct from directory-qualified absolute paths. -/
structure Fs where
  files : List (String × String)

/-- Immediate (non-recursive) entries of a directory: the names of files
directly under it. -/
def readdirSync (fs : Fs) (dir : String) : List String :=
  fs.files.filterMap (fun kv =>
    let pre := (dir ++ "/").data
    if pre.isPrefixOf kv.1.data && !((kv.1.data.drop pre.length).contains ('/')) then
      some (String.mk (kv.1.data.drop pre.length))
    else none)

/-- Read a file, throwing `ENOENT` when the path does not exist. -/
def readFileSync (fs : Fs) (p : String) : Except JsError String :=
  match fs.files.find? (fun kv => kv.1 == p) with
  | some kv => Except.ok kv.2
  | none =>
      Except.error
        { name := some "Error"
          message := "ENOENT: no such file or directory, open " ++ p
          key := none
          details := none }

/-- Embedding of `inflateSecretsDir`: for each entry name `f` of the
directory the source executes `env[f] = fs.readFileSync(f, "utf8")` — note
the path passed to `readFileSync` is the bare entry name `f`, not a path
inside the directory. -/
def inflateSecretsDir (fs : Fs) (path : String) :
    Except JsError (List (String × Option String)) :=
  (readdirSync fs path).foldlM
    (fun env f => do
      let contents ← readFileSync fs f
      pure (upsert env f (some contents)))
    []

/-- Modelled from the spec: §4.1 — every immediate file entry of the
secrets directory becomes one raw source map entry whose key is the file
name and whose value is the full contents of that file inside the secrets
directory.  This is the documented intent `inflateSecretsDir` is compared
against. -/
def specInflateSecretsDir (fs : Fs) (path : String) :
    Except JsError (List (String × Option String)) :=
  (readdirSync fs path).foldlM
    (fun env f => do
      let contents ← readFileSync fs (path ++ "/" ++ f)
      pure (upsert env f (some contents)))
    []

/-! ### Query helpers used to state the claims -/

/-- Look a path up in a config tree, descending through object fields. -/
def lookupPath : JsonValue → List String → Option JsonValue
  | t, [] => some t
  | JsonValue.obj fields, k :: rest =>
      match lookupField fields k with
      | some c => lookupPath c rest
      | none => none
  | _, _ :: _ => none

/-- Object-node test. -/
def isObjNode : JsonValue → Bool
  | JsonValue.obj _ => true
  | _ => false

/-- Key lookup in a flat map. -/
def lookupFlat (flat : List (String × Option String)) (k : String) :
    Option (Option String) :=
  match flat.find? (fun kv => kv.1 == k) with
  | some kv => some kv.2
  | none => none

/-- Duplicate-free key test, used as a hypothesis wherever an association
list stands for a JavaScript object (whose keys are necessarily unique). -/
def nodupKeysB (ks : List String) : Bool := decide ks.Nodup

/-- The last element of a list satisfying a predicate, used to describe the
outcome of a left fold whose matching steps overwrite earlier writes. -/
def lastSat (p : α → Bool) : List α → Option α
  | [] => none
  | x :: xs =>
      match lastSat p xs with
      | some y => some y
      | none => if p x then some x else none

mutual

/-- Well-formedness of a config tree as the image of a JavaScript value:
every object node carries duplicate-free keys.  Trees built by the pipeline
and trees parsed from JSON files always satisfy this. -/
def wfV : JsonValue → Bool
  | JsonValue.obj fields => nodupKeysB (fields.map Prod.fst) && wfFields fields
  | JsonValue.arr xs => wfArr xs
  | _ => true
termination_by v => sizeOf v

def wfFields : List (String × JsonValue) → Bool
  | [] => true
  | (_, v) :: rest => wfV v && wfFields rest
termination_by fs => sizeOf fs

def wfArr : List JsonValue → Bool
  | [] => true
  | v :: rest => wfV v && wfArr rest
termination_by xs => sizeOf xs

end

/-! ## Properties of the sort comparator -/

theorem char_toNat_inj {a b : Char} (h : a.toNat = b.toNat) : a = b :=
  Char.ext (UInt32.ext h)

theorem charsLe_total : ∀ x y : List Char, charsLe x y = true ∨ charsLe y x = true
  | [], _ => Or.inl rfl
  | _ :: _, [] => Or.inr rfl
  | a :: as, b :: bs => by
    by_cases h1 : a.toNat < b.toNat
    · left
      simp [charsLe, h1]
    · by_cases h2 : b.toNat < a.toNat
      · right
        simp [charsLe, h1, h2]
      · rcases charsLe_total as bs with h | h
        · left
          simp [charsLe, h1, h2, h]
        · right
          simp [charsLe, h1, h2, h]

theorem charsLe_trans :
    ∀ x y z : List Char, charsLe x y = true → charsLe y z = true → charsLe x z = true
  | [], _, _, _, _ => rfl
  | _ :: _, [], _, h1, _ => by simp [charsLe] at h1
  | _ :: _, _ :: _, [], _, h2 => by simp [charsLe] at h2
  | a :: as, b :: bs, c :: cs, h1, h2 => by
    simp only [charsLe] at h1 h2 ⊢
    have hab2 : a.toNat < b.toNat ∨ (a.toNat = b.toNat ∧ charsLe as bs = true) := by
      by_cases h : a.toNat < b.toNat
      · exact Or.inl h
      · by_cases h3 : b.toNat < a.toNat
        · rw [if_neg h, if_pos h3] at h1
          exact absurd h1 (by simp)
        · exact Or.inr ⟨by omega, by rwa [if_neg h, if_neg h3] at h1⟩
    have hbc2 : b.toNat < c.toNat ∨ (b.toNat = c.toNat ∧ charsLe bs cs = true) := by
      by_cases h : b.toNat < c.toNat
      · exact Or.inl h
      · by_cases h3 : c.toNat < b.toNat
        · rw [if_neg h, if_pos h3] at h2
          exact absurd h2 (by simp)
        · exact Or.inr ⟨by omega, by rwa [if_neg h, if_neg h3] at h2⟩
    rcases hab2 with hab | ⟨hab, t1⟩ <;> rcases hbc2 with hbc | ⟨hbc, t2⟩
    · rw [if_pos (by omega : a.toNat < c.toNat)]
    · rw [if_pos (by omega : a.toNat < c.toNat)]
    · rw [if_pos (by omega : a.toNat < c.toNat)]
    · rw [if_neg (by omega : ¬ a.toNat < c.toNat),
        if_neg (by omega : ¬ c.toNat < a.toNat)]
      exact charsLe_trans as bs cs t1 t2

theorem charsLe_antisymm :
    ∀ x y : List Char, charsLe x y = true → charsLe y x = true → x = y
  | [], [], _, _ => rfl
  | [], _ :: _, _, h2 => by simp [charsLe] at h2
  | _ :: _, [], h1, _ => by simp [charsLe] at h1
  | a :: as, b :: bs, h1, h2 => by
    simp only [charsLe] at h1 h2
    by_cases hab : a.toNat < b.toNat
    · have hba : ¬ b.toNat < a.toNat := by omega
      simp [hab, hba] at h2
    · by_cases hba : b.toNat < a.toNat
      · simp [hab, hba] at h1
      · simp [hab, hba] at h1 h2
        have : a = b := char_toNat_inj (by omega)
        rw [this, charsLe_antisymm as bs h1 h2]

theorem strLeB_total (a b : String) : strLeB a b = true ∨ strLeB b a = true :=
  charsLe_total a.data b.data

theorem strLeB_trans {a b c : String} (h1 : strLeB a b = true)
    (h2 : strLeB b c = true) : strLeB a c = true :=
  charsLe_trans a.data b.data c.data h1 h2

theorem strLeB_antisymm {a b : String} (h1 : strLeB a b = true)
    (h2 : strLeB b a = true) : a = b := by
  have : a.data = b.data := charsLe_antisymm a.data b.data h1 h2
  cases a
  cases b
  exact congrArg String.mk this

/-! ## Properties of `sortStrings` -/

theorem sortStrings_sorted (ks : List String) :
    List.Sorted (fun a b : String => strLeB a b = true) (sortStrings ks) := by
  haveI : IsTotal String (fun a b : String => strLeB a b = true) :=
    ⟨fun a b => strLeB_total a b⟩
  haveI : IsTrans String (fun a b : String => strLeB a b = true) :=
    ⟨fun _ _ _ h1 h2 => strLeB_trans h1 h2⟩
  exact List.sorted_insertionSort _ ks

theorem sortStrings_perm (ks : List String) : List.Perm (sortStrings ks) ks :=
  List.perm_insertionSort _ ks

/-! ## The flattening fold: last matching write wins -/

theorem lookupFlat_cons_self (k : String) (v : Option String)
    (rest : List (String × Option String)) :
    lookupFlat ((k, v) :: rest) k = some v := by
  simp [lookupFlat, List.find?]

theorem lookupFlat_cons_ne (k k2 : String) (v : Option String)
    (rest : List (String × Option String)) (h : k ≠ k2) :
    lookupFlat ((k, v) :: rest) k2 = lookupFlat rest k2 := by
  simp only [lookupFlat, List.find?]
  rw [show ((k, v).1 == k2) = false by simpa using h]

theorem lookupFlat_upsert_self (agg : List (String × Option String))
    (k : String) (v : Option String) :
    lookupFlat (upsert agg k v) k = some v := by
  induction agg with
  | nil => simp [upsert, lookupFlat, List.find?]
  | cons kv rest ih =>
    obtain ⟨k1, v1⟩ := kv
    by_cases h : k1 = k
    · subst h
      simp only [upsert, if_pos rfl]
      exact lookupFlat_cons_self _ _ _
    · rw [upsert, if_neg h, lookupFlat_cons_ne _ _ _ _ h]
      exact ih

theorem lookupFlat_upsert_ne (agg : List (String × Option String))
    (k k2 : String) (v : Option String) (h : k2 ≠ k) :
    lookupFlat (upsert agg k v) k2 = lookupFlat agg k2 := by
  induction agg with
  | nil =>
    simp only [upsert]
    rw [lookupFlat_cons_ne _ _ _ _ (Ne.symm h)]
  | cons kv rest ih =>
    obtain ⟨k1, v1⟩ := kv
    by_cases h1 : k1 = k
    · subst h1
      rw [upsert, if_pos rfl, lookupFlat_cons_ne _ _ _ _ (Ne.symm h),
        lookupFlat_cons_ne _ _ _ _ (Ne.symm h)]
    · by_cases h2 : k1 = k2
      · subst h2
        rw [upsert, if_neg h1, lookupFlat_cons_self, lookupFlat_cons_self]
      · rw [upsert, if_neg h1, lookupFlat_cons_ne _ _ _ _ h2,
          lookupFlat_cons_ne _ _ _ _ h2]
        exact ih

theorem lastSat_mem {p : α → Bool} :
    ∀ {l : List α} {y : α}, lastSat p l = some y → y ∈ l ∧ p y = true := by
  intro l
  induction l with
  | nil => intro y h; simp [lastSat] at h
  | cons x xs ih =>
    intro y h
    simp only [lastSat] at h
    cases hx : lastSat p xs with
    | some z =>
      rw [hx] at h
      cases h
      have := ih hx
      exact ⟨List.mem_cons_of_mem _ this.1, this.2⟩
    | none =>
      rw [hx] at h
      by_cases hp : p x = true
      · simp [hp] at h
        cases h
        exact ⟨List.mem_cons_self _ _, hp⟩
      · simp [hp] at h

theorem flatten_foldl_lookup (env : List (String × Option String)) (ns : String) :
    ∀ (ks : List String) (agg : List (String × Option String)) (b : String),
      lookupFlat (ks.foldl (flattenStep env ns) agg) b =
        match lastSat (fun k => keyBase ns k == some b) ks with
        | some k => some (envGet env k)
        | none => lookupFlat agg b := by
  intro ks
  induction ks with
  | nil => intro agg b; rfl
  | cons k rest ih =>
    intro agg b
    rw [List.foldl_cons, ih]
    cases hrest : lastSat (fun k => keyBase ns k == some b) rest with
    | some k2 => simp [lastSat, hrest]
    | none =>
      simp only [lastSat, hrest]
      by_cases hp : (keyBase ns k == some b) = true
      · have hkb : keyBase ns k = some b := by simpa using hp
        rw [if_pos hp]
        rw [flattenStep, hkb]
        exact lookupFlat_upsert_self _ _ _
      · rw [if_neg hp]
        cases hkb : keyBase ns k with
        | some nm =>
          have hnb : nm ≠ b := by
            intro hc
            subst hc
            exact hp (by simp [hkb])
          rw [flattenStep, hkb]
          exact lookupFlat_upsert_ne _ _ _ _ (Ne.symm hnb)
        | none => rw [flattenStep, hkb]

theorem lastSat_sorted_pair {p : String → Bool} :
    ∀ {l : List String} {k1 k2 : String},
      List.Sorted (fun a b : String => strLeB a b = true) l →
      k2 ∈ l → p k2 = true →
      (∀ x ∈ l, p x = true → x = k1 ∨ x = k2) →
      strLeB k1 k2 = true → k1 ≠ k2 →
      lastSat p l = some k2 := by
  intro l
  induction l with
  | nil => intro k1 k2 _ hmem; exact absurd hmem (List.not_mem_nil _)
  | cons x xs ih =>
    intro k1 k2 hsort hmem hp2 hsat hle hne
    have hx : ∀ z ∈ xs, strLeB x z = true := List.rel_of_sorted_cons hsort
    have hsort' := hsort.of_cons
    by_cases hk2xs : k2 ∈ xs
    · have : lastSat p xs = some k2 :=
        ih hsort' hk2xs hp2 (fun z hz hpz => hsat z (List.mem_cons_of_mem _ hz) hpz) hle hne
      simp [lastSat, this]
    · have hk2x : k2 = x := by
        rcases List.mem_cons.mp hmem with h | h
        · exact h
        · exact absurd h hk2xs
      subst hk2x
      cases hlast : lastSat p xs with
      | some y =>
        have hy := lastSat_mem hlast
        rcases hsat y (List.mem_cons_of_mem _ hy.1) hy.2 with h | h
        · subst h
          have : strLeB k2 y = true := hx y hy.1
          exact absurd (strLeB_antisymm hle this) hne
        · subst h
          exact absurd hy.1 hk2xs
      | none => simp [lastSat, hlast, hp2]

theorem envGet_eq {env : List (String × Option String)} {k2 : String}
    {v2 : Option String} (hnd : (env.map Prod.fst).Nodup)
    (h : (k2, v2) ∈ env) : envGet env k2 = v2 := by
  induction env with
  | nil => exact absurd h (List.not_mem_nil _)
  | cons kv rest ih =>
    obtain ⟨ka, va⟩ := kv
    rcases List.mem_cons.mp h with heq | htail
    · cases heq
      simp [envGet, List.find?]
    · have hka : ka ≠ k2 := by
        intro hc
        subst hc
        have : ka ∈ rest.map Prod.fst :=
          List.mem_map.mpr ⟨(ka, v2), htail, rfl⟩
        exact (List.nodup_cons.mp hnd).1 this
      have hres := ih (List.nodup_cons.mp hnd).2 htail
      simp only [envGet, List.find?] at hres ⊢
      rw [show ((ka, va).1 == k2) = false by simpa using hka]
      exact hres

/-- Core of claims C2 and C7: in a single raw source map, among the raw keys
resolving to a given base name, the lexically greatest full original key is
the one whose value the flattening stage stores under the base name — here
stated for the case of exactly two such keys. -/
theorem flatten_pair (env : List (String × Option String)) (ns b k1 k2 : String)
    (v2 : Option String)
    (hnd : nodupKeysB (env.map Prod.fst) = true)
    (h2 : (k2, v2) ∈ env)
    (hmem1 : k1 ∈ env.map Prod.fst)
    (hb2 : keyBase ns k2 = some b)
    (hle : strLeB k1 k2 = true) (hne : k1 ≠ k2)
    (hOnly : ∀ kv ∈ env, kv.1 ≠ k1 → kv.1 ≠ k2 → keyBase ns kv.1 ≠ some b) :
    lookupFlat (flattenEnv env ns) b = some v2 := by
  have hndp : (env.map Prod.fst).Nodup := of_decide_eq_true hnd
  have hperm := sortStrings_perm (env.map Prod.fst)
  have hmem2 : k2 ∈ sortStrings (env.map Prod.fst) :=
    hperm.mem_iff.mpr (List.mem_map.mpr ⟨(k2, v2), h2, rfl⟩)
  have hlast :
      lastSat (fun k => keyBase ns k == some b) (sortStrings (env.map Prod.fst))
        = some k2 := by
    apply lastSat_sorted_pair (sortStrings_sorted _) hmem2 (by simp [hb2])
      _ hle hne
    intro x hxmem hpx
    have hx : x ∈ env.map Prod.fst := hperm.mem_iff.mp hxmem
    obtain ⟨kv, hkv, hkvx⟩ := List.mem_map.mp hx
    by_cases hx1 : x = k1
    · exact Or.inl hx1
    · by_cases hx2 : x = k2
      · exact Or.inr hx2
      · exfalso
        have := hOnly kv hkv (hkvx ▸ hx1) (hkvx ▸ hx2)
        rw [hkvx] at this
        exact this (by simpa using hpx)
  rw [flattenEnv, flatten_foldl_lookup, hlast]
  show some (envGet env k2) = some v2
  rw [envGet_eq hndp h2]

/-! ## Deep-merge lemmas -/

theorem lookupField_cons_self (k : String) (v : JsonValue)
    (rest : List (String × JsonValue)) :
    lookupField ((k, v) :: rest) k = some v := by
  simp [lookupField, List.find?]

theorem lookupField_cons_ne (k k2 : String) (v : JsonValue)
    (rest : List (String × JsonValue)) (h : k ≠ k2) :
    lookupField ((k, v) :: rest) k2 = lookupField rest k2 := by
  simp only [lookupField, List.find?]
  rw [show ((k, v).1 == k2) = false by simpa using h]

theorem lookupField_setField_self (f : List (String × JsonValue))
    (k : String) (v : JsonValue) :
    lookupField (setField f k v) k = some v := by
  induction f with
  | nil => simp [setField, lookupField, List.find?]
  | cons kv rest ih =>
    obtain ⟨k1, v1⟩ := kv
    by_cases h : k1 = k
    · subst h
      rw [setField, if_pos rfl]
      exact lookupField_cons_self _ _ _
    · rw [setField, if_neg h, lookupField_cons_ne _ _ _ _ h]
      exact ih

theorem lookupField_setField_ne (f : List (String × JsonValue))
    (k k2 : String) (v : JsonValue) (h : k2 ≠ k) :
    lookupField (setField f k v) k2 = lookupField f k2 := by
  induction f with
  | nil =>
    simp only [setField]
    rw [lookupField_cons_ne _ _ _ _ (Ne.symm h)]
  | cons kv rest ih =>
    obtain ⟨k1, v1⟩ := kv
    by_cases h1 : k1 = k
    · subst h1
      rw [setField, if_pos rfl, lookupField_cons_ne _ _ _ _ (Ne.symm h),
        lookupField_cons_ne _ _ _ _ (Ne.symm h)]
    · by_cases h2 : k1 = k2
      · subst h2
        rw [setField, if_neg h1, lookupField_cons_self, lookupField_cons_self]
      · rw [setField, if_neg h1, lookupField_cons_ne _ _ _ _ h2,
          lookupField_cons_ne _ _ _ _ h2]
        exact ih

theorem dmFields_lookup_not_mem :
    ∀ (f2 f1 : List (String × JsonValue)) (k : String),
      k ∉ f2.map Prod.fst →
      lookupField (dmFields f1 f2) k = lookupField f1 k := by
  intro f2
  induction f2 with
  | nil => intro f1 k _; simp [dmFields]
  | cons kv rest ih =>
    intro f1 k hk
    obtain ⟨ka, va⟩ := kv
    have hka : ka ≠ k := by
      intro hc
      exact hk (by simp [hc])
    have hkrest : k ∉ rest.map Prod.fst := by
      intro hc
      exact hk (by simp [hc])
    rw [dmFields, ih _ _ hkrest, lookupField_setField_ne _ _ _ _ (Ne.symm hka)]

theorem dmFields_lookup_mem :
    ∀ (f2 f1 : List (String × JsonValue)) (k : String) (c : JsonValue),
      (f2.map Prod.fst).Nodup →
      lookupField f2 k = some c →
      lookupField (dmFields f1 f2) k =
        some (match lookupField f1 k with
              | some c1 => deepmerge c1 c
              | none => c) := by
  intro f2
  induction f2 with
  | nil => intro f1 k c _ hc; simp [lookupField, List.find?] at hc
  | cons kv rest ih =>
    intro f1 k c hnd hc
    obtain ⟨ka, va⟩ := kv
    by_cases hka : ka = k
    · subst hka
      rw [lookupField_cons_self] at hc
      cases hc
      have hkrest : ka ∉ rest.map Prod.fst := (List.nodup_cons.mp hnd).1
      rw [dmFields, dmFields_lookup_not_mem rest _ ka hkrest,
        lookupField_setField_self]
    · rw [lookupField_cons_ne _ _ _ _ hka] at hc
      rw [dmFields, ih _ _ _ (List.nodup_cons.mp hnd).2 hc,
        lookupField_setField_ne _ _ _ _ (Ne.symm hka)]

theorem wfV_obj {fields : List (String × JsonValue)}
    (h : wfV (JsonValue.obj fields) = true) :
    (fields.map Prod.fst).Nodup ∧ wfFields fields = true := by
  simp only [wfV, Bool.and_eq_true] at h
  exact ⟨of_decide_eq_true h.1, h.2⟩

theorem wfFields_mem :
    ∀ {fields : List (String × JsonValue)} {k : String} {c : JsonValue},
      wfFields fields = true → (k, c) ∈ fields → wfV c = true := by
  intro fields
  induction fields with
  | nil => intro k c _ hm; exact absurd hm (List.not_mem_nil _)
  | cons kv rest ih =>
    intro k c hwf hm
    obtain ⟨ka, va⟩ := kv
    simp only [wfFields, Bool.and_eq_true] at hwf
    rcases List.mem_cons.mp hm with heq | htail
    · cases heq
      exact hwf.1
    · exact ih hwf.2 htail

theorem lookupField_mem {fields : List (String × JsonValue)} {k : String}
    {c : JsonValue} (h : lookupField fields k = some c) : (k, c) ∈ fields := by
  simp only [lookupField] at h
  cases hf : fields.find? (fun kv => kv.1 == k) with
  | none => rw [hf] at h; cases h
  | some kv =>
    rw [hf] at h
    cases h
    obtain ⟨k1, v1⟩ := kv
    have hmem := List.mem_of_find?_eq_some hf
    have hp := List.find?_some hf
    have : k1 = k := by simpa using hp
    subst this
    exact hmem

theorem deepmerge_nonobj (a b : JsonValue) (h : isObjNode b = false) :
    deepmerge a b = b := by
  cases a <;> cases b <;> simp_all [deepmerge, isObjNode]

theorem deepmerge_nonobj_left (a b : JsonValue) (h : isObjNode a = false) :
    deepmerge a b = b := by
  cases a <;> cases b <;> simp_all [deepmerge, isObjNode]

theorem deepmerge_obj_obj (f1 f2 : List (String × JsonValue)) :
    deepmerge (JsonValue.obj f1) (JsonValue.obj f2)
      = JsonValue.obj (dmFields f1 f2) := by
  rw [deepmerge]

theorem lookupPath_nil (t : JsonValue) : lookupPath t [] = some t := by
  cases t <;> rfl

/-- Non-object values found in the second tree survive the deep merge: the
core of the precedence property. -/
theorem deepmerge_lookupPath :
    ∀ (p : List String) (t1 t2 v : JsonValue),
      wfV t2 = true →
      lookupPath t2 p = some v → isObjNode v = false →
      lookupPath (deepmerge t1 t2) p = some v := by
  intro p
  induction p with
  | nil =>
    intro t1 t2 v _ hv hnv
    rw [lookupPath_nil] at hv
    cases hv
    rw [deepmerge_nonobj _ _ hnv, lookupPath_nil]
  | cons k rest ih =>
    intro t1 t2 v hwf hv hnv
    cases t2 with
    | obj f2 =>
      simp only [lookupPath] at hv
      cases hc : lookupField f2 k with
      | none => rw [hc] at hv; cases hv
      | some c =>
        rw [hc] at hv
        have hwf2 := wfV_obj hwf
        have hwfc : wfV c = true := wfFields_mem hwf2.2 (lookupField_mem hc)
        cases t1 with
        | obj f1 =>
          rw [deepmerge_obj_obj, lookupPath,
            dmFields_lookup_mem f2 f1 k c hwf2.1 hc]
          cases hc1 : lookupField f1 k with
          | some c1 => exact ih c1 c v hwfc hv hnv
          | none => exact hv
        | str s =>
          rw [deepmerge_nonobj_left (JsonValue.str s) (JsonValue.obj f2) rfl]
          simp only [lookupPath, hc]
          exact hv
        | num x =>
          rw [deepmerge_nonobj_left (JsonValue.num x) (JsonValue.obj f2) rfl]
          simp only [lookupPath, hc]
          exact hv
        | bool b =>
          rw [deepmerge_nonobj_left (JsonValue.bool b) (JsonValue.obj f2) rfl]
          simp only [lookupPath, hc]
          exact hv
        | null =>
          rw [deepmerge_nonobj_left JsonValue.null (JsonValue.obj f2) rfl]
          simp only [lookupPath, hc]
          exact hv
        | arr xs =>
          rw [deepmerge_nonobj_left (JsonValue.arr xs) (JsonValue.obj f2) rfl]
          simp only [lookupPath, hc]
          exact hv
    | str s => simp [lookupPath] at hv
    | num x => simp [lookupPath] at hv
    | bool b => simp [lookupPath] at hv
    | null => simp [lookupPath] at hv
    | arr xs => simp [lookupPath] at hv

/-! ## Digit and canonical-rendering lemmas -/

theorem digitVal_digitChar {d : Nat} (h : d < 10) : digitVal (digitChar d) = d := by
  interval_cases d <;> decide

theorem isDigitChar_digitChar {d : Nat} (h : d < 10) :
    isDigitChar (digitChar d) = true := by
  interval_cases d <;> decide

theorem digitChar_ne_zero {d : Nat} (h : d < 10) (h0 : d ≠ 0) :
    digitChar d ≠ '0' := by
  interval_cases d
  · exact absurd rfl h0
  all_goals decide

theorem digitChar_digitVal {c : Char} (h : isDigitChar c = true) :
    digitChar (digitVal c) = c := by
  simp only [isDigitChar, Bool.and_eq_true, decide_eq_true_eq] at h
  have h48 : 48 + digitVal c = c.toNat := by
    simp only [digitVal]
    omega
  rw [digitChar, h48, Char.ofNat_toNat]

theorem digitVal_lt_ten {c : Char} (h : isDigitChar c = true) : digitVal c < 10 := by
  simp only [isDigitChar, Bool.and_eq_true, decide_eq_true_eq] at h
  simp only [digitVal]
  omega

theorem digitVal_ne_zero {c : Char} (h : isDigitChar c = true) (h0 : c ≠ '0') :
    digitVal c ≠ 0 := by
  simp only [isDigitChar, Bool.and_eq_true, decide_eq_true_eq] at h
  simp only [digitVal]
  intro hc
  exact h0 (char_toNat_inj (by simpa [show Char.toNat '0' = 48 from rfl] using by omega))

theorem natReprGo_eq :
    ∀ (n fuel : Nat), n ≤ fuel →
      natReprGo fuel n = ((Nat.digits 10 n).map digitChar).reverse := by
  intro n
  induction n using Nat.strong_induction_on with
  | _ n ih =>
    intro fuel hle
    match n, fuel with
    | 0, 0 => simp [natReprGo]
    | 0, fuel + 1 => simp [natReprGo]
    | m + 1, 0 => omega
    | m + 1, fuel + 1 =>
      rw [natReprGo]
      have hdiv : (m + 1) / 10 < m + 1 := Nat.div_lt_self (Nat.succ_pos m) (by omega)
      rw [ih ((m + 1) / 10) hdiv fuel (by omega)]
      rw [Nat.digits_def' (by norm_num : (1 : Nat) < 10) (Nat.succ_pos m)]
      simp

theorem natRepr_data (n : Nat) (h : n ≠ 0) :
    (natRepr n).data = ((Nat.digits 10 n).map digitChar).reverse := by
  rw [natRepr, if_neg h]
  show natReprGo n n = _
  exact natReprGo_eq n n le_rfl

theorem natRepr_zero : natRepr 0 = "0" := rfl

theorem digitsVal_natRepr (n : Nat) : digitsVal (natRepr n).data = n := by
  by_cases h : n = 0
  · subst h
    rfl
  · rw [natRepr_data n h, digitsVal, List.map_reverse, List.reverse_reverse,
      List.map_map]
    have hmc : List.map (digitVal ∘ digitChar) (Nat.digits 10 n)
        = Nat.digits 10 n := by
      have : List.map (digitVal ∘ digitChar) (Nat.digits 10 n)
          = List.map id (Nat.digits 10 n) := by
        apply List.map_congr_left
        intro d hd
        simp only [Function.comp, id]
        exact digitVal_digitChar (Nat.digits_lt_base (by norm_num) hd)
      rw [this, List.map_id]
    rw [hmc, Nat.ofDigits_digits]

theorem natRepr_canon (n : Nat) : isCanonNatCs (natRepr n).data = true := by
  by_cases h : n = 0
  · subst h
    rfl
  · rw [natRepr_data n h]
    have hne : Nat.digits 10 n ≠ [] := Nat.digits_ne_nil_iff_ne_zero.mpr h
    cases hds : ((Nat.digits 10 n).map digitChar).reverse with
    | nil =>
      exfalso
      apply hne
      have h2 := congrArg List.reverse hds
      simp only [List.reverse_reverse, List.reverse_nil] at h2
      exact List.map_eq_nil_iff.mp h2
    | cons c rest =>
      have hmemall : ∀ x ∈ c :: rest, isDigitChar x = true := by
        intro x hx
        rw [← hds] at hx
        rw [List.mem_reverse] at hx
        obtain ⟨d, hd, rfl⟩ := List.mem_map.mp hx
        exact isDigitChar_digitChar (Nat.digits_lt_base (by norm_num) hd)
      have hc : isDigitChar c = true := hmemall c (List.mem_cons_self _ _)
      have hrest : rest.all isDigitChar = true := by
        rw [List.all_eq_true]
        intro x hx
        exact hmemall x (List.mem_cons_of_mem _ hx)
      have hc0 : c ≠ '0' := by
        have hlast0 : (Nat.digits 10 n).getLast hne ≠ 0 :=
          Nat.getLast_digit_ne_zero 10 h
        have h1 : ((Nat.digits 10 n).map digitChar).reverse.head? = some c := by
          rw [hds]
          rfl
        rw [List.head?_reverse, List.getLast?_map,
          List.getLast?_eq_getLast _ hne] at h1
        have hc_eq : c = digitChar ((Nat.digits 10 n).getLast hne) :=
          (Option.some.inj h1).symm
        rw [hc_eq]
        exact digitChar_ne_zero
          (Nat.digits_lt_base (by norm_num) (List.getLast_mem hne)) hlast0
      simp [isCanonNatCs, hc, hrest, hc0]

theorem natRepr_of_canon :
    ∀ cs : List Char, isCanonNatCs cs = true → natRepr (digitsVal cs) = String.mk cs := by
  intro cs hcanon
  match cs, hcanon with
  | c :: rest, hcanon =>
    simp only [isCanonNatCs, Bool.and_eq_true, Bool.or_eq_true] at hcanon
    obtain ⟨⟨hc, hrest⟩, hzero⟩ := hcanon
    by_cases hc0 : c = '0'
    · have hrnil : rest = [] := by
        rcases hzero with h | h
        · exact absurd hc0 (by simpa using h)
        · simpa using h
      subst hrnil
      subst hc0
      rfl
    · -- the little-endian digit list
      have hall : ∀ x ∈ c :: rest, isDigitChar x = true := by
        intro x hx
        rcases List.mem_cons.mp hx with rfl | hx2
        · exact hc
        · exact (List.all_eq_true.mp hrest) x hx2
      have hlt : ∀ l ∈ ((c :: rest).map digitVal).reverse, l < 10 := by
        intro l hl
        rw [List.mem_reverse] at hl
        obtain ⟨x, hx, rfl⟩ := List.mem_map.mp hl
        exact digitVal_lt_ten (hall x hx)
      have hLne : ((c :: rest).map digitVal).reverse ≠ [] := by simp
      have hlastne : ∀ (hne : ((c :: rest).map digitVal).reverse ≠ []),
          (((c :: rest).map digitVal).reverse).getLast hne ≠ 0 := by
        intro hne
        have h1 : (((c :: rest).map digitVal).reverse).getLast? =
            ((c :: rest).map digitVal).head? := List.getLast?_reverse _
        rw [List.getLast?_eq_getLast _ hne] at h1
        simp only [List.map_cons, List.head?_cons] at h1
        have h2 : (((c :: rest).map digitVal).reverse).getLast hne = digitVal c :=
          Option.some.inj h1
        rw [h2]
        exact digitVal_ne_zero hc hc0
      have hdig : Nat.digits 10 (Nat.ofDigits 10 (((c :: rest).map digitVal).reverse))
          = ((c :: rest).map digitVal).reverse :=
        Nat.digits_ofDigits 10 (by norm_num) _ hlt hlastne
      have hval : digitsVal (c :: rest)
          = Nat.ofDigits 10 (((c :: rest).map digitVal).reverse) := rfl
      have hne0 : digitsVal (c :: rest) ≠ 0 := by
        intro h0
        rw [hval] at h0
        rw [h0] at hdig
        simp only [Nat.digits_zero] at hdig
        exact hLne hdig.symm
      apply String.ext
      show (natRepr (digitsVal (c :: rest))).data = c :: rest
      rw [natRepr_data _ hne0, hval, hdig]
      rw [List.map_reverse, List.reverse_reverse, List.map_map]
      have hcongr : List.map (digitChar ∘ digitVal) (c :: rest)
          = List.map id (c :: rest) := by
        apply List.map_congr_left
        intro x hx
        simp only [Function.comp, id]
        exact digitChar_digitVal (hall x hx)
      rw [hcongr, List.map_id]

/-! ## Parsing canonical integer strings -/

theorem not_ws_of_digit {c : Char} (h : isDigitChar c = true) :
    isJsWhitespace c = false := by
  simp only [isDigitChar, Bool.and_eq_true, decide_eq_true_eq] at h
  simp only [isJsWhitespace]
  simp only [Bool.or_eq_false_iff, Bool.and_eq_false_iff,
    decide_eq_false_iff_not]
  omega

theorem digit_ne_minus {c : Char} (h : isDigitChar c = true) : c ≠ '-' := by
  intro hc
  subst hc
  simp [isDigitChar] at h

theorem digit_ne_plus {c : Char} (h : isDigitChar c = true) : c ≠ '+' := by
  intro hc
  subst hc
  simp [isDigitChar] at h

theorem dropWhile_all_false {p : Char → Bool} :
    ∀ {l : List Char}, (∀ c ∈ l, p c = false) → l.dropWhile p = l := by
  intro l
  induction l with
  | nil => intro _; rfl
  | cons c rest ih =>
    intro h
    rw [List.dropWhile_cons,
      if_neg (by simp [h c (List.mem_cons_self _ _)])]

theorem takeWhile_all_true {p : Char → Bool} :
    ∀ {l : List Char}, (∀ c ∈ l, p c = true) → l.takeWhile p = l := by
  intro l
  induction l with
  | nil => intro _; rfl
  | cons c rest ih =>
    intro h
    rw [List.takeWhile_cons, if_pos (h c (List.mem_cons_self _ _)),
      ih (fun x hx => h x (List.mem_cons_of_mem _ hx))]

theorem dropWhile_all_true {p : Char → Bool} :
    ∀ {l : List Char}, (∀ c ∈ l, p c = true) → l.dropWhile p = [] := by
  intro l
  induction l with
  | nil => intro _; rfl
  | cons c rest ih =>
    intro h
    rw [List.dropWhile_cons, if_pos (h c (List.mem_cons_self _ _))]
    exact ih (fun x hx => h x (List.mem_cons_of_mem _ hx))

/-- Unpack a canonical natural rendering: nonempty and all digits. -/
theorem canon_facts {cs : List Char} (h : isCanonNatCs cs = true) :
    cs ≠ [] ∧ ∀ c ∈ cs, isDigitChar c = true := by
  match cs, h with
  | c :: rest, h =>
    simp only [isCanonNatCs, Bool.and_eq_true] at h
    refine ⟨by simp, ?_⟩
    intro x hx
    rcases List.mem_cons.mp hx with rfl | hx2
    · exact h.1.1
    · exact (List.all_eq_true.mp h.1.2) x hx2

theorem digitsVal_canon_ne_zero {cs : List Char} (hcanon : isCanonNatCs cs = true)
    (h0 : cs ≠ ['0']) : digitsVal cs ≠ 0 := by
  intro hz
  have := natRepr_of_canon cs hcanon
  rw [hz, natRepr_zero] at this
  exact h0 (by simpa using congrArg String.data this.symm)

theorem takeDecDigits_all {cs : List Char} (hne : cs ≠ [])
    (hall : ∀ c ∈ cs, isDigitChar c = true) :
    takeDecDigits cs = some (digitsVal cs) := by
  simp only [takeDecDigits]
  rw [takeWhile_all_true hall]
  rw [if_neg (by simpa [List.isEmpty_iff] using hne)]

theorem parseIntNoSign_canon {cs : List Char} (hcanon : isCanonNatCs cs = true) :
    parseIntNoSign cs = some (digitsVal cs) := by
  obtain ⟨hne, hall⟩ := canon_facts hcanon
  match cs, hcanon with
  | [c], _ => exact takeDecDigits_all hne hall
  | c :: x :: rest, hcanon =>
    simp only [isCanonNatCs, Bool.and_eq_true, Bool.or_eq_true] at hcanon
    have hc0 : c ≠ '0' := by
      rcases hcanon.2 with h | h
      · simpa using h
      · simp at h
    rw [parseIntNoSign, if_neg (by intro hcontra; exact hc0 hcontra.1)]
    exact takeDecDigits_all hne hall

theorem parseIntJs_canonNat {cs : List Char} (hcanon : isCanonNatCs cs = true) :
    parseIntJs (String.mk cs) = some ((digitsVal cs : Nat) : Int) := by
  obtain ⟨hne, hall⟩ := canon_facts hcanon
  match cs, hcanon with
  | c :: rest, hcanon =>
    have hcd : isDigitChar c = true := hall c (List.mem_cons_self _ _)
    show parseIntDispatch ((c :: rest).dropWhile isJsWhitespace) = _
    rw [List.dropWhile_cons, if_neg (by simp [not_ws_of_digit hcd])]
    rw [parseIntDispatch, if_neg (digit_ne_minus hcd),
      if_neg (digit_ne_plus hcd), parseIntNoSign_canon hcanon]
    rfl

theorem parseIntJs_canonNeg {cs : List Char} (hcanon : isCanonNatCs cs = true) :
    parseIntJs (String.mk ('-' :: cs))
      = some (-((digitsVal cs : Nat) : Int)) := by
  show parseIntDispatch (('-' :: cs).dropWhile isJsWhitespace) = _
  rw [List.dropWhile_cons, if_neg (by decide)]
  rw [parseIntDispatch, if_pos rfl, parseIntNoSign_canon hcanon]
  rfl

theorem intRepr_natCast (n : Nat) : intRepr ((n : Nat) : Int) = natRepr n := by
  rw [intRepr, if_neg (by omega), Int.natAbs_ofNat]

theorem intRepr_neg_natCast (n : Nat) (h : n ≠ 0) :
    intRepr (-((n : Nat) : Int)) = "-" ++ natRepr n := by
  rw [intRepr, if_pos (by omega), Int.natAbs_neg, Int.natAbs_ofNat]

/-- Every printed integer is a canonical base-10 integer string. -/
theorem intRepr_base10 (n : Int) : isBase10IntString (intRepr n) = true := by
  rcases Int.natAbs_eq n with h | h
  · rw [h, intRepr_natCast]
    have hcanon := natRepr_canon n.natAbs
    cases hd : (natRepr n.natAbs).data with
    | nil => rw [hd] at hcanon; simp [isCanonNatCs] at hcanon
    | cons c rest =>
      rw [hd] at hcanon
      have hcd : isDigitChar c = true := by
        simp only [isCanonNatCs, Bool.and_eq_true] at hcanon
        exact hcanon.1.1
      rw [isBase10IntString, hd, isBase10IntCs, if_neg (digit_ne_minus hcd)]
      exact hcanon
  · by_cases hz : n.natAbs = 0
    · rw [h, hz]
      rfl
    · rw [h, intRepr_neg_natCast _ hz]
      have hdata : ("-" ++ natRepr n.natAbs).data
          = '-' :: (natRepr n.natAbs).data := rfl
      rw [isBase10IntString, hdata, isBase10IntCs, if_pos rfl]
      have hcanon := natRepr_canon n.natAbs
      have hne : (natRepr n.natAbs).data ≠ ['0'] := by
        intro hc
        apply hz
        have hval := digitsVal_natRepr n.natAbs
        rw [hc] at hval
        rw [show digitsVal ['0'] = 0 from rfl] at hval
        exact hval.symm
      simp [hcanon, hne]

/-- The guard of `nativize` — the source's `` `${parseInt(v)}` === v ``
test — holds exactly for canonical base-10 integer strings and for the
string `"NaN"`. -/
theorem nativize_guard_iff (v : String) :
    jsIntToString (parseIntJs v) = v ↔
      (isBase10IntString v = true ∨ v = "NaN") := by
  constructor
  · intro h
    cases hp : parseIntJs v with
    | none =>
      rw [hp] at h
      exact Or.inr h.symm
    | some n =>
      rw [hp] at h
      simp only [jsIntToString] at h
      rw [← h]
      exact Or.inl (intRepr_base10 n)
  · intro h
    rcases h with h | h
    · have hv : v = String.mk v.data := rfl
      cases hd : v.data with
      | nil => rw [isBase10IntString, hd] at h; cases h
      | cons c rest =>
        rw [isBase10IntString, hd, isBase10IntCs] at h
        by_cases hm : c = '-'
        · subst hm
          rw [if_pos rfl] at h
          simp only [Bool.and_eq_true, Bool.not_eq_eq_eq_not, Bool.not_true,
            decide_eq_false_iff_not] at h
          have hvmk : v = String.mk ('-' :: rest) := by rw [hv, hd]
          rw [hvmk, parseIntJs_canonNeg h.1]
          simp only [jsIntToString]
          rw [intRepr_neg_natCast _ (digitsVal_canon_ne_zero h.1 h.2),
            natRepr_of_canon rest h.1]
          rfl
        · rw [if_neg hm] at h
          have hvmk : v = String.mk (c :: rest) := by rw [hv, hd]
          rw [hvmk, parseIntJs_canonNat h]
          simp only [jsIntToString]
          rw [intRepr_natCast, natRepr_of_canon _ h]
    · subst h
      rfl

/-- The value of `parseInt` on a canonical integer string. -/
theorem parseIntJs_of_base10 {v : String} (h : isBase10IntString v = true) :
    parseIntJs v = some (canonIntVal v) := by
  have hv : v = String.mk v.data := rfl
  cases hd : v.data with
  | nil => rw [isBase10IntString, hd] at h; cases h
  | cons c rest =>
    rw [isBase10IntString, hd, isBase10IntCs] at h
    rw [show canonIntVal v = canonIntCs (c :: rest) by rw [canonIntVal, hd]]
    by_cases hm : c = '-'
    · subst hm
      rw [if_pos rfl] at h
      simp only [Bool.and_eq_true, Bool.not_eq_eq_eq_not, Bool.not_true,
        decide_eq_false_iff_not] at h
      rw [show v = String.mk ('-' :: rest) by rw [hv, hd],
        parseIntJs_canonNeg h.1, canonIntCs, if_pos rfl]
      rfl
    · rw [if_neg hm] at h
      rw [show v = String.mk (c :: rest) by rw [hv, hd],
        parseIntJs_canonNat h, canonIntCs, if_neg hm]
      rfl

/-! ## The value of `Number` on canonical integer strings -/

theorem parseNonDec_digits_none {cs : List Char}
    (hall : ∀ c ∈ cs, isDigitChar c = true) : parseNonDec cs = none := by
  match cs with
  | [] => rfl
  | [c] => rfl
  | c0 :: x :: rest =>
    have hx : isDigitChar x = true := hall x (by simp)
    have hxv : 48 ≤ x.toNat ∧ x.toNat ≤ 57 := by
      simpa [isDigitChar, Bool.and_eq_true, decide_eq_true_eq] using hx
    have hletters : x ≠ 'x' ∧ x ≠ 'X' ∧ x ≠ 'o' ∧ x ≠ 'O' ∧ x ≠ 'b' ∧ x ≠ 'B' := by
      refine ⟨?_, ?_, ?_, ?_, ?_, ?_⟩ <;>
        (intro hc; subst hc; revert hxv; decide)
    rw [parseNonDec]
    rw [if_neg (by
      rintro ⟨-, hor, -⟩
      rcases hor with h | h
      · exact hletters.1 h
      · exact hletters.2.1 h)]
    rw [if_neg (by
      rintro ⟨-, hor, -⟩
      rcases hor with h | h
      · exact hletters.2.2.1 h
      · exact hletters.2.2.2.1 h)]
    rw [if_neg (by
      rintro ⟨-, hor, -⟩
      rcases hor with h | h
      · exact hletters.2.2.2.2.1 h
      · exact hletters.2.2.2.2.2 h)]

theorem digits_ne_infinity {cs : List Char}
    (hall : ∀ c ∈ cs, isDigitChar c = true) : cs ≠ "Infinity".data := by
  intro hc
  have hmem : isDigitChar 'I' = true := by
    apply hall
    rw [hc]
    decide
  simp [isDigitChar] at hmem

theorem parseUnsignedDec_digits {cs : List Char} (hne : cs ≠ [])
    (hall : ∀ c ∈ cs, isDigitChar c = true) :
    parseUnsignedDec cs = some ((digitsVal cs : Nat) : Rat) := by
  simp only [parseUnsignedDec]
  rw [takeWhile_all_true hall, dropWhile_all_true hall]
  rw [if_neg (by simpa [List.isEmpty_iff] using hne)]

theorem parseUnsignedOrInf_digits {cs : List Char} (hne : cs ≠ [])
    (hall : ∀ c ∈ cs, isDigitChar c = true) :
    parseUnsignedOrInf cs = some (JsNum.finite ((digitsVal cs : Nat) : Rat)) := by
  rw [parseUnsignedOrInf, if_neg (digits_ne_infinity hall),
    parseUnsignedDec_digits hne hall]
  rfl

theorem jsNumber_trim_digits {cs : List Char}
    (hall : ∀ c ∈ cs, isJsWhitespace c = false) :
    ((cs.dropWhile isJsWhitespace).reverse.dropWhile isJsWhitespace).reverse
      = cs := by
  rw [dropWhile_all_false hall,
    dropWhile_all_false (fun c hc => hall c (List.mem_reverse.mp hc)),
    List.reverse_reverse]

theorem jsNumber_digits {cs : List Char} (hne : cs ≠ [])
    (hall : ∀ c ∈ cs, isDigitChar c = true) :
    jsNumber (String.mk cs) = JsNum.finite ((digitsVal cs : Nat) : Rat) := by
  match cs with
  | c :: rest =>
    have hcd : isDigitChar c = true := hall c (List.mem_cons_self _ _)
    show jsNumberDispatch _ = _
    rw [jsNumber_trim_digits (fun x hx => not_ws_of_digit (hall x hx))]
    rw [jsNumberDispatch, if_neg (digit_ne_minus hcd),
      if_neg (digit_ne_plus hcd), parseNonDec_digits_none hall,
      parseUnsignedOrInf_digits hne hall]

theorem jsNumber_neg_digits {cs : List Char} (hne : cs ≠ [])
    (hall : ∀ c ∈ cs, isDigitChar c = true) :
    jsNumber (String.mk ('-' :: cs))
      = JsNum.finite (-((digitsVal cs : Nat) : Rat)) := by
  show jsNumberDispatch _ = _
  rw [jsNumber_trim_digits (by
    intro x hx
    rcases List.mem_cons.mp hx with rfl | hx2
    · decide
    · exact not_ws_of_digit (hall x hx2))]
  rw [jsNumberDispatch, if_pos rfl, parseUnsignedOrInf_digits hne hall]
  rfl

/-- The executable predicate `isBase10IntString` captures exactly the
strings that are the rendering of some integer. -/
theorem isBase10IntString_iff (v : String) :
    isBase10IntString v = true ↔ ∃ n : Int, intRepr n = v := by
  constructor
  · intro h
    refine ⟨canonIntVal v, ?_⟩
    have hg := (nativize_guard_iff v).mpr (Or.inl h)
    rw [parseIntJs_of_base10 h] at hg
    exact hg
  · rintro ⟨n, rfl⟩
    exact intRepr_base10 n

/-- The value of `Number` on a canonical integer string. -/
theorem jsNumber_of_base10 {v : String} (h : isBase10IntString v = true) :
    jsNumber v = JsNum.finite ((canonIntVal v : Int) : Rat) := by
  have hv : v = String.mk v.data := rfl
  cases hd : v.data with
  | nil => rw [isBase10IntString, hd] at h; cases h
  | cons c rest =>
    rw [isBase10IntString, hd, isBase10IntCs] at h
    rw [show canonIntVal v = canonIntCs (c :: rest) by rw [canonIntVal, hd]]
    by_cases hm : c = '-'
    · subst hm
      rw [if_pos rfl] at h
      simp only [Bool.and_eq_true, Bool.not_eq_eq_eq_not, Bool.not_true,
        decide_eq_false_iff_not] at h
      obtain ⟨hne, hall⟩ := canon_facts h.1
      rw [show v = String.mk ('-' :: rest) by rw [hv, hd],
        jsNumber_neg_digits hne hall, canonIntCs, if_pos rfl]
      rw [show (-Int.ofNat (digitsVal rest) : Int)
          = -((digitsVal rest : Nat) : Int) from rfl]
      exact congrArg JsNum.finite (by push_cast; ring)
    · rw [if_neg hm] at h
      obtain ⟨hne, hall⟩ := canon_facts h
      rw [show v = String.mk (c :: rest) by rw [hv, hd],
        jsNumber_digits hne hall, canonIntCs, if_neg hm]
      rw [show (Int.ofNat (digitsVal (c :: rest)) : Int)
          = ((digitsVal (c :: rest) : Nat) : Int) from rfl]
      exact congrArg JsNum.finite (by push_cast; ring)

/-! ## Explicit-cast lemmas -/

theorem isPrefixOf_append_self :
    ∀ (l1 l2 : List Char), (l1.isPrefixOf (l1 ++ l2)) = true := by
  intro l1 l2
  induction l1 with
  | nil => cases l2 <;> rfl
  | cons a as ih => simp [List.isPrefixOf, ih]

theorem strPre_append_self (p X : String) : strPre p (p ++ X) = true := by
  show (p.data.isPrefixOf (p.data ++ X.data)) = true
  exact isPrefixOf_append_self _ _

theorem interpret_single (k raw delim : String) :
    interpret [(k, some raw)] delim
      = Except.ok (insertPath (JsonValue.obj []) (jsSplit k delim)
          (castValue raw)) := rfl

theorem castTag_string (X : String) (h : noLineTerm X = true) :
    castTag ("<string>" ++ X) = some ("string", X) := by
  rw [castTag]
  rw [show strPre ("<number>") ("<string>" ++ X) = false from rfl]
  rw [show strDrop ("<string>" ++ X) 8 = X from rfl]
  rw [strPre_append_self ("<string>") X]
  simp [h]

theorem castTag_boolean (X : String) (h : noLineTerm X = true) :
    castTag ("<boolean>" ++ X) = some ("boolean", X) := by
  rw [castTag]
  rw [show strPre ("<number>") ("<boolean>" ++ X) = false from rfl]
  rw [show strPre ("<string>") ("<boolean>" ++ X) = false from rfl]
  rw [strPre_append_self ("<boolean>") X]
  rw [show strDrop ("<boolean>" ++ X) 9 = X from rfl]
  simp [h]

theorem castTag_number (X : String) (h : noLineTerm X = true) :
    castTag ("<number>" ++ X) = some ("number", X) := by
  rw [castTag]
  rw [strPre_append_self ("<number>") X]
  rw [show strDrop ("<number>" ++ X) 8 = X from rfl]
  simp [h]

theorem castValue_string (X : String) (h : noLineTerm X = true) :
    castValue ("<string>" ++ X) = JsonValue.str X := by
  rw [castValue, castTag_string X h]
  show (if ("string" : String) = "number" then JsonValue.num (jsNumber X)
    else if ("string" : String) = "boolean" then
      JsonValue.bool (jsTruthy (nativize X))
    else JsonValue.str X) = JsonValue.str X
  rw [if_neg (by decide), if_neg (by decide)]

theorem castValue_boolean (X : String) (h : noLineTerm X = true) :
    castValue ("<boolean>" ++ X) = JsonValue.bool (jsTruthy (nativize X)) := by
  rw [castValue, castTag_boolean X h]
  show (if ("boolean" : String) = "number" then JsonValue.num (jsNumber X)
    else if ("boolean" : String) = "boolean" then
      JsonValue.bool (jsTruthy (nativize X))
    else JsonValue.str X) = JsonValue.bool (jsTruthy (nativize X))
  rw [if_neg (by decide), if_pos (by decide)]

theorem castValue_number (X : String) (h : noLineTerm X = true) :
    castValue ("<number>" ++ X) = JsonValue.num (jsNumber X) := by
  rw [castValue, castTag_number X h]
  show (if ("number" : String) = "number" then JsonValue.num (jsNumber X)
    else if ("number" : String) = "boolean" then
      JsonValue.bool (jsTruthy (nativize X))
    else JsonValue.str X) = JsonValue.num (jsNumber X)
  rw [if_pos (by decide)]

/-! ## Claim theorems -/

/-- Claim C1 (code_bug, evaluation of the code at the failing input): for
the environment map `APP_items_0=a`, `APP_items_1=b` with namespace `APP_`
and the default delimiter, the tree builder produces an object node keyed
`"0"` and `"1"`, not an array node, because the array-creation condition
compares `typeof` of a path segment — always the string `"string"` — with
`"number"` and is therefore never taken. -/
theorem c1_array_inflation_code_behavior :
    _configFromEnv [("APP_items_0", some "a"), ("APP_items_1", some "b")]
        ("APP_") ("_")
      = Except.ok (JsonValue.obj [("items",
          JsonValue.obj [("0", JsonValue.str "a"), ("1", JsonValue.str "b")])])
    ∧ (∀ s : String, jsTypeofOfString s ≠ "number") :=
  ⟨rfl, fun s => by simp [jsTypeofOfString]⟩

/-- Claim C2 counterexample: with raw keys `APP_x__10=b` and `APP_x__2=a`
in a single source map, the claim as stated demands that the value of the
key with the numerically greater suffix (`__10`, value `"b"`) be stored
under the base name `x`; the code stores `"a"`, the value of the lexically
greater key `APP_x__2`. -/
theorem c2_counterexample :
    lookupFlat (flattenEnv [("APP_x__10", some "b"), ("APP_x__2", some "a")]
        ("APP_")) ("x") = some (some "a")
    ∧ (some (some "a") : Option (Option String)) ≠ some (some "b") :=
  ⟨rfl, by simp⟩

/-- Claim C2 as amended: within a single source map, when exactly two raw
keys resolve to the same base name, the key-flattening stage stores under
the base name the value of the key whose full original key is lexically
greater — which coincides with the numerically greater `__NNN` suffix only
when the suffixes sort lexically in numeric order (for example with equal
digit widths). -/
theorem c2_lexically_greater_key_wins (env : List (String × Option String))
    (ns b k1 k2 : String) (v2 : Option String)
    (hnd : nodupKeysB (env.map Prod.fst) = true)
    (h2 : (k2, v2) ∈ env)
    (hmem1 : k1 ∈ env.map Prod.fst)
    (hb1 : keyBase ns k1 = some b) (hb2 : keyBase ns k2 = some b)
    (hle : strLeB k1 k2 = true) (hne : k1 ≠ k2)
    (hOnly : ∀ kv ∈ env, kv.1 ≠ k1 → kv.1 ≠ k2 → keyBase ns kv.1 ≠ some b) :
    lookupFlat (flattenEnv env ns) b = some v2 :=
  flatten_pair env ns b k1 k2 v2 hnd h2 hmem1 hb2 hle hne hOnly

/-- Witness for the amended claim C2, at the counterexample input: the
lexically greater key `APP_x__2` wins over `APP_x__10`. -/
theorem c2_lexically_greater_key_wins_witness :
    lookupFlat (flattenEnv [("APP_x__10", some "b"), ("APP_x__2", some "a")]
        ("APP_")) ("x") = some (some "a") :=
  c2_lexically_greater_key_wins
    [("APP_x__10", some "b"), ("APP_x__2", some "a")]
    ("APP_") ("x") ("APP_x__10") ("APP_x__2") (some "a")
    rfl (by simp) (by simp) rfl rfl rfl (by simp) (by decide)

/-- Claim C5 counterexample: on the raw value `"NaN"`, native inference
yields the NaN sentinel — a value of number type — although `"NaN"` is not
the string form of a base-10 integer, and the original string is not
returned unchanged either; the claimed characterization ("a number exactly
when the value is exactly the string form of a base-10 integer, …
otherwise the original string unchanged") therefore fails at `"NaN"`. -/
theorem c5_counterexample :
    nativize "NaN" = JsonValue.num JsNum.nan
    ∧ isBase10IntString "NaN" = false
    ∧ JsonValue.num JsNum.nan ≠ JsonValue.str "NaN" :=
  ⟨rfl, rfl, by simp⟩

/-- Claim C5 as amended: for every raw string value, native inference
yields a number exactly when the value is the string form of a base-10
integer (then its exact value) or the special string `"NaN"` (then the NaN
sentinel); boolean true for `"true"`, false for `"false"`, null for
`"null"`; and otherwise the original string unchanged — so `"5.5"` and
`"007"` stay strings while `"42"` and `"-3"` become numbers.  (Exact
integer semantics; the IEEE-754 rounding JavaScript applies to integers of
magnitude at least 2^53 is outside the model.) -/
theorem c5_nativize_characterization (v : String) :
    nativize v =
      if isBase10IntString v then
        JsonValue.num (JsNum.finite ((canonIntVal v : Int) : Rat))
      else if v = "NaN" then JsonValue.num JsNum.nan
      else if v = "true" then JsonValue.bool true
      else if v = "false" then JsonValue.bool false
      else if v = "null" then JsonValue.null
      else JsonValue.str v := by
  by_cases hc : isBase10IntString v = true
  · rw [if_pos hc, nativize,
      if_pos ((nativize_guard_iff v).mpr (Or.inl hc)),
      jsNumber_of_base10 hc]
  · rw [if_neg hc]
    by_cases hn : v = "NaN"
    · subst hn
      rw [if_pos rfl]
      rfl
    · rw [if_neg hn, nativize, if_neg (fun hg => by
        rcases (nativize_guard_iff v).mp hg with h2 | h2
        · exact hc h2
        · exact hn h2)]

/-- Claim C6 counterexample: the raw value `<string>5\n` is of the form
`<string>X` with `X = "5\n"`, yet the value interpreter does not return
`X`: the metacharacter `.` of the cast regular expression does not match
the line terminator, the expression fails to match, and native inference
leaves the whole raw value as a string. -/
theorem c6_counterexample :
    interpret [("n", some ("<string>5\n"))] ("_")
      = Except.ok (JsonValue.obj [("n", JsonValue.str ("<string>5\n"))])
    ∧ JsonValue.str ("<string>5\n") ≠ JsonValue.str ("5\n") :=
  ⟨rfl, by simp⟩

/-- Claim C6 as amended: for every `X` containing no line terminator, the
raw value `<string>X` interprets to the literal string `X` with no further
inference, and the raw value `<boolean>X` interprets to the boolean
coercion of the native inference of `X`. -/
theorem c6_explicit_casts (X : String) (h : noLineTerm X = true) :
    interpret [("n", some ("<string>" ++ X))] ("_")
      = Except.ok (JsonValue.obj [("n", JsonValue.str X)])
    ∧ interpret [("n", some ("<boolean>" ++ X))] ("_")
      = Except.ok (JsonValue.obj
          [("n", JsonValue.bool (jsTruthy (nativize X)))]) := by
  constructor
  · rw [interpret_single, castValue_string X h]
    rfl
  · rw [interpret_single, castValue_boolean X h]
    rfl

/-- Witness for the amended claim C6 at `X = "5"`: `<string>5` stays the
string `"5"` (not the number 5) and `<boolean>5` becomes the boolean
coercion of the inferred number 5. -/
theorem c6_explicit_casts_witness :
    interpret [("n", some ("<string>" ++ "5"))] ("_")
      = Except.ok (JsonValue.obj [("n", JsonValue.str "5")])
    ∧ interpret [("n", some ("<boolean>" ++ "5"))] ("_")
      = Except.ok (JsonValue.obj
          [("n", JsonValue.bool (jsTruthy (nativize "5")))]) :=
  c6_explicit_casts "5" rfl

/-- Claim C9 counterexample: the raw value `<number>\na` is of the form
`<number>X` with `X = "\na"` not parseable as a number, yet the value
interpreter does not produce the NaN sentinel: the cast regular expression
fails to match across the line terminator, and the value stays a string. -/
theorem c9_counterexample :
    interpret [("n", some ("<number>\na"))] ("_")
      = Except.ok (JsonValue.obj [("n", JsonValue.str ("<number>\na"))])
    ∧ jsNumber "\na" = JsNum.nan
    ∧ JsonValue.str ("<number>\na") ≠ JsonValue.num JsNum.nan :=
  ⟨rfl, rfl, by simp⟩

/-- Claim C9 as amended: for every `X` containing no line terminator that
is not parseable as a number, the raw value `<number>X` raises no error and
interprets to the numeric not-a-number sentinel. -/
theorem c9_number_cast_nan (X : String) (h : noLineTerm X = true)
    (hn : jsNumber X = JsNum.nan) :
    interpret [("n", some ("<number>" ++ X))] ("_")
      = Except.ok (JsonValue.obj [("n", JsonValue.num JsNum.nan)]) := by
  rw [interpret_single, castValue_number X h, hn]
  rfl

/-- Witness for the amended claim C9 at the specification's own example
`<number>abc`. -/
theorem c9_number_cast_nan_witness :
    interpret [("n", some ("<number>" ++ "abc"))] ("_")
      = Except.ok (JsonValue.obj [("n", JsonValue.num JsNum.nan)]) :=
  c9_number_cast_nan "abc" rfl rfl

/-- Claim C7: in any single source map containing the raw keys
`APP_x__1=a` and `APP_x__2=b` and no other key resolving to the base name
`x`, the flattening stage strips the suffixes and stores `b` — the value of
the higher single-digit version — under the flat key `x`. -/
theorem c7_version_suffix_resolution (env : List (String × Option String))
    (a b : String)
    (hnd : nodupKeysB (env.map Prod.fst) = true)
    (h1 : ("APP_x__1", some a) ∈ env) (h2 : ("APP_x__2", some b) ∈ env)
    (hOnly : ∀ kv ∈ env, kv.1 ≠ "APP_x__1" → kv.1 ≠ "APP_x__2" →
      keyBase ("APP_") kv.1 ≠ some ("x")) :
    lookupFlat (flattenEnv env ("APP_")) ("x") = some (some b) :=
  flatten_pair env ("APP_") ("x") ("APP_x__1") ("APP_x__2") (some b) hnd h2
    (List.mem_map.mpr ⟨_, h1, rfl⟩) rfl rfl (by decide) hOnly

/-- Witness for claim C7 at the concrete two-entry source map. -/
theorem c7_version_suffix_resolution_witness :
    lookupFlat (flattenEnv [("APP_x__1", some "a"), ("APP_x__2", some "b")]
        ("APP_")) ("x") = some (some "b") :=
  c7_version_suffix_resolution
    [("APP_x__1", some "a"), ("APP_x__2", some "b")] "a" "b"
    rfl (by simp) (by simp) (by decide)

/-- Claim C3: when the same key path is supplied by several sources, the
merged config resolves it by the fixed precedence
defaults < locals < secrets < env: a (non-object) value the env source
supplies at a path wins both over a value at the same path in the defaults
tree and over one contributed by the secrets directory, and the merge order
is exactly `deepmerge(defaults, locals, secrets, env)`. -/
theorem c3_merge_precedence_env_wins (defaults locals s e : JsonValue)
    (secretsSrc envSrc : List (String × Option String)) (ns delim : String)
    (p : List String) (v w u : JsonValue)
    (hs : _configFromEnv secretsSrc ns delim = Except.ok s)
    (he : _configFromEnv envSrc ns delim = Except.ok e)
    (hwf : wfV e = true)
    (hv : lookupPath e p = some v) (hnv : isObjNode v = false)
    (hd : lookupPath defaults p = some w) (hu : lookupPath s p = some u) :
    configMerged (some defaults) (some locals) (some secretsSrc)
        (some envSrc) ns delim
      = Except.ok (deepmerge (deepmerge (deepmerge defaults locals) s) e)
    ∧ lookupPath (deepmerge (deepmerge (deepmerge defaults locals) s) e) p
        = some v := by
  constructor
  · simp only [configMerged, hs, he]
    rfl
  · exact deepmerge_lookupPath p _ e v hwf hv hnv

/-- Witness for claim C3: the key `a` is supplied by the defaults file
(value 1), the secrets directory (raw value "3") and the environment (raw
value "2"); the merged tree resolves it to the env value 2. -/
theorem c3_merge_precedence_env_wins_witness :
    configMerged (some (JsonValue.obj [("a", JsonValue.num (JsNum.finite 1))]))
        (some (JsonValue.obj []))
        (some [("APP_a", some "3")]) (some [("APP_a", some "2")])
        ("APP_") ("_")
      = Except.ok
          (deepmerge
            (deepmerge
              (deepmerge (JsonValue.obj [("a", JsonValue.num (JsNum.finite 1))])
                (JsonValue.obj []))
              (JsonValue.obj [("a", JsonValue.num (JsNum.finite 3))]))
            (JsonValue.obj [("a", JsonValue.num (JsNum.finite 2))]))
    ∧ lookupPath
        (deepmerge
          (deepmerge
            (deepmerge (JsonValue.obj [("a", JsonValue.num (JsNum.finite 1))])
              (JsonValue.obj []))
            (JsonValue.obj [("a", JsonValue.num (JsNum.finite 3))]))
          (JsonValue.obj [("a", JsonValue.num (JsNum.finite 2))]))
        ["a"] = some (JsonValue.num (JsNum.finite 2)) :=
  c3_merge_precedence_env_wins
    (JsonValue.obj [("a", JsonValue.num (JsNum.finite 1))]) (JsonValue.obj [])
    (JsonValue.obj [("a", JsonValue.num (JsNum.finite 3))])
    (JsonValue.obj [("a", JsonValue.num (JsNum.finite 2))])
    [("APP_a", some "3")] [("APP_a", some "2")] ("APP_") ("_")
    ["a"] (JsonValue.num (JsNum.finite 2)) (JsonValue.num (JsNum.finite 1))
    (JsonValue.num (JsNum.finite 3))
    rfl rfl (by simp [wfV, wfFields, nodupKeysB]) rfl rfl rfl rfl

/-- Claim C4 (code_bug, evaluation of the code at the failing inputs): the
source passes the bare directory-entry name `f` to `readFileSync` instead
of a path inside the secrets directory, so it resolves against the working
directory.  For a secrets directory `/secrets` containing `foo` with
contents `bar`: when no file named `foo` exists relative to the working
directory the call throws ENOENT, and when one does exist its (wrong)
contents are silently used; the spec-modelled reader returns the entry of
the file inside the directory in both situations. -/
theorem c4_secrets_dir_read :
    readdirSync ⟨[("/secrets/foo", "bar")]⟩ ("/secrets") = ["foo"]
    ∧ inflateSecretsDir ⟨[("/secrets/foo", "bar")]⟩ ("/secrets")
        = Except.error
            { name := some "Error"
              message := "ENOENT: no such file or directory, open foo"
              key := none
              details := none }
    ∧ specInflateSecretsDir ⟨[("/secrets/foo", "bar")]⟩ ("/secrets")
        = Except.ok [("foo", some "bar")]
    ∧ inflateSecretsDir ⟨[("/secrets/foo", "bar"), ("foo", "wrong")]⟩
        ("/secrets") = Except.ok [("foo", some "wrong")]
    ∧ specInflateSecretsDir ⟨[("/secrets/foo", "bar"), ("foo", "wrong")]⟩
        ("/secrets") = Except.ok [("foo", some "bar")] :=
  ⟨rfl, rfl, rfl, rfl, rfl⟩

/-- Claim C8: when the validator's `check` throws a failure of the
validation-error shape (its `name` is `"ValidationError"`), the validator
gate raises exactly one wrapped error whose message is the interpolation of
`Invalid configuration: `, the key part, the message and the details part,
and which therefore contains the failure's message, its key path when a
non-empty one is available, and the pretty-printed details payload when one
is available; any other thrown failure is propagated unchanged. -/
theorem c8_validation_error_wrapping
    (check : JsonValue → Except JsError JsonValue) (c : JsonValue)
    (e : JsError) (hc : check c = Except.error e) :
    (e.name = some "ValidationError" →
      runValidator check c = Except.error (wrapValidation e)
      ∧ (wrapValidation e).message
          = "Invalid configuration: " ++ keyPart e ++ e.message ++ detailsPart e
      ∧ List.IsInfix e.message.data (wrapValidation e).message.data
      ∧ (∀ k, e.key = some k → k ≠ "" →
          List.IsInfix k.data (wrapValidation e).message.data)
      ∧ (∀ d, e.details = some d → jsTruthy d = true →
          List.IsInfix (jsonStringifyPretty d).data
            (wrapValidation e).message.data))
    ∧ (e.name ≠ some "ValidationError" →
        runValidator check c = Except.error e) := by
  constructor
  · intro hname
    refine ⟨?_, rfl, ?_, ?_, ?_⟩
    · rw [runValidator, hc]
      show (if e.name = some "ValidationError" then
          Except.error (wrapValidation e)
        else Except.error e) = _
      rw [if_pos hname]
    · show List.IsInfix e.message.data
        ("Invalid configuration: " ++ keyPart e ++ e.message
          ++ detailsPart e).data
      exact ⟨("Invalid configuration: " ++ keyPart e).data,
        (detailsPart e).data, by simp [String.data_append, List.append_assoc]⟩
    · intro k hk hkne
      have hkp : keyPart e = k ++ ": " := by
        simp only [keyPart, hk]
        rw [if_neg hkne]
      show List.IsInfix k.data
        ("Invalid configuration: " ++ keyPart e ++ e.message
          ++ detailsPart e).data
      exact ⟨("Invalid configuration: ").data,
        (": ").data ++ e.message.data ++ (detailsPart e).data, by
          simp [hkp, String.data_append, List.append_assoc]⟩
    · intro d hd htruthy
      have hdp : detailsPart e = "\nDetails: " ++ jsonStringifyPretty d := by
        simp only [detailsPart, hd]
        rw [if_pos htruthy]
      show List.IsInfix (jsonStringifyPretty d).data
        ("Invalid configuration: " ++ keyPart e ++ e.message
          ++ detailsPart e).data
      exact ⟨("Invalid configuration: ").data ++ (keyPart e).data
          ++ e.message.data ++ ("\nDetails: ").data, [], by
        simp [hdp, String.data_append, List.append_assoc]⟩
  · intro hname
    rw [runValidator, hc]
    show (if e.name = some "ValidationError" then
        Except.error (wrapValidation e)
      else Except.error e) = _
    rw [if_neg hname]

/-- Witness for claim C8: a concrete validator that throws a
`ValidationError` carrying key `api.url`, a message and details is
rewrapped into the single descriptive error. -/
theorem c8_validation_error_wrapping_witness :
    runValidator
      (fun _ => Except.error
        { name := some "ValidationError", message := "expected a string",
          key := some "api.url", details := some (JsonValue.str "bad") })
      (JsonValue.obj [])
      = Except.error (wrapValidation
          { name := some "ValidationError", message := "expected a string",
            key := some "api.url", details := some (JsonValue.str "bad") }) :=
  ((c8_validation_error_wrapping
    (fun _ => Except.error
      { name := some "ValidationError", message := "expected a string",
        key := some "api.url", details := some (JsonValue.str "bad") })
    (JsonValue.obj []) _ rfl).1 rfl).1

/-- Claim C10: an environment entry whose key matches the namespace but
whose value is `undefined` is not skipped: the flattening stage stores the
`undefined` value in the flat map, and the value-interpretation step then
fails with a runtime type error when it pattern-matches the cast syntax on
the `undefined` value, aborting the whole `config` operation. -/
theorem c10_undefined_env_value :
    flattenEnv [("APP_x", none)] ("APP_") = [("x", none)]
    ∧ _configFromEnv [("APP_x", none)] ("APP_") ("_")
        = Except.error undefinedMatchError
    ∧ config passCheck none none none (some [("APP_x", none)]) ("APP_") ("_")
        = Except.error undefinedMatchError :=
  ⟨rfl, rfl, rfl⟩

end ConfigNode
